import Mathlib

/-!
Verification of the appdash in-memory span store (`span.go`).

The Go code assembles individually collected spans into per-trace trees,
tolerating out-of-order arrival.  We give a shallow embedding:

* Go `ID` (a fixed-width identifier, zero meaning "absent") becomes `Nat`.
* Go `SpanID {Trace, Span, Parent ID}` becomes the structure `SpanID`.
* A Go `*Trace` tree node (`Trace` struct: a `Span` plus a `Sub []*Trace`
  child list) is represented by the structure `TraceNode`.  Node identity:
  a node is created exactly once, when its span identifier is first
  collected, and is registered under the key `id.Span` in the per-trace
  span map (`ms.span[id.Trace][id.Span] = s`); a map entry is never
  overwritten with a different node.  Hence, inside one trace, a Go
  pointer to a node is faithfully represented by the node's span-map key,
  and Go pointer equality between two nodes of a trace is equality of
  their keys.  A `Sub` list of node pointers becomes a list of keys.
* The two store maps `trace : map[ID]*Trace` and
  `span : map[ID]map[ID]*Trace` become association lists; the `*Trace`
  values become the designated root key, resp. `TraceNode` values.
* The `panic("dst == src")` in `reattachChildren` is modelled by an
  `Option` result: `none` is the panic.  `Collect` propagates it, so the
  Go property "Collect never panics and returns nil" becomes
  "`collect` always returns `some`".
-/

/-- Go `type ID uint64` (defined in the repository's `id.go`, outside the
given sources).  Modelled as `Nat`; the zero value means "absent". -/
abbrev ID := Nat

/-- Go `SpanID` struct (span.go lines 10-22). -/
structure SpanID where
  trace : ID
  span : ID
  parent : ID
deriving DecidableEq, Repr

/-- Go `Annotation` struct (span.go lines 152-161): a string key and an
opaque byte-string value (bytes as naturals). -/
structure Annotation where
  key : String
  value : List Nat
deriving DecidableEq, Repr

/-- Go `Trace` tree node (a `Span`, i.e. its `SpanID` plus annotations,
together with the `Sub` child list).  `sub` stores the span-map keys of
the children, standing for the Go child pointers. -/
structure TraceNode where
  sid : SpanID
  annotations : List Annotation
  sub : List ID
deriving DecidableEq, Repr

instance : Inhabited TraceNode := ⟨⟨⟨0, 0, 0⟩, [], []⟩⟩

/-- Per-trace span map `map[ID]*Trace` (span ID to node), as an
association list in insertion order. -/
abbrev SpanMap := List (ID × TraceNode)

/-- Go `memoryStore` (span.go lines 200-207): the `trace` map holds, for
each trace ID, the key of the current root node; the `span` map holds the
per-trace span maps. -/
structure MemoryStore where
  trace : List (ID × ID)
  span : List (ID × SpanMap)
deriving DecidableEq, Repr

/-- `NewMemoryStore` (span.go lines 192-198): both maps empty. -/
def emptyStore : MemoryStore := ⟨[], []⟩

/-- Association-list lookup, modelling Go map indexing. -/
def alookup {α : Type} : List (ID × α) → ID → Option α
  | [], _ => none
  | (k', v) :: rest, k => if k = k' then some v else alookup rest k

/-- Association-list insert-or-replace, modelling Go map assignment. -/
def aset {α : Type} : List (ID × α) → ID → α → List (ID × α)
  | [], k, v => [(k, v)]
  | (k', v') :: rest, k, v =>
      if k = k' then (k, v) :: rest else (k', v') :: aset rest k v

/-- Update the node stored under key `k` (mutation through a Go pointer:
the single registered node for that key changes, every reference sees
it).  Absent keys are untouched. -/
def nupd : SpanMap → ID → (TraceNode → TraceNode) → SpanMap
  | [], _, _ => []
  | (k', v) :: rest, k, f =>
      if k' = k then (k', f v) :: nupd rest k f else (k', v) :: nupd rest k f

/-- The stored `Span.ID.Parent` field of the node registered under key
`x` (Go `t.Span.ID.Parent` read through the span map). -/
def parentOf (sm : SpanMap) (x : ID) : ID :=
  ((alookup sm x).getD default).sid.parent

/-- The `Sub` child-key list of the node registered under key `k`; empty
for unregistered keys (no Go node exists for them). -/
def childrenOf (sm : SpanMap) (k : ID) : List ID :=
  ((alookup sm k).getD default).sub

/-- The stored `Span.ID.Span` field of the node registered under key
`k`.  Every node is created with `Span{ID: id}` under key `id.Span`, so
for registered keys this is the key itself; it is what Go reads as
`dst.Span.ID.Span` in `reattachChildren`. -/
def ownSpanOf (sm : SpanMap) (k : ID) : ID :=
  ((alookup sm k).getD default).sid.span

/-- Go `memoryStore.insert(root, t)` (span.go lines 308-323), inside the
trace of `t`: look the stored parent of `t` up in the span map; if
present, append `t` to the parent's child list, otherwise append `t` to
the (temporary) root's child list.  (`t.ID.Trace` always equals the
trace key of the enclosing span map — every node is created with
`Span{ID: id}` and registered under `id.Trace` — so the Go lookup
`ms.span[t.ID.Trace][t.ID.Parent]` stays inside `sm`.) -/
def insertNode (sm : SpanMap) (rootK tK : ID) : SpanMap :=
  let tparent := parentOf sm tK
  match alookup sm tparent with
  | some _ => nupd sm tparent fun p => ⟨p.sid, p.annotations, p.sub ++ [tK]⟩
  | none => nupd sm rootK fun r => ⟨r.sid, r.annotations, r.sub ++ [tK]⟩

/-- Go `memoryStore.reattachChildren(dst, src)` (span.go lines 327-343):
move the children of `src` whose stored parent identifier equals the span
identifier of `dst` onto `dst`'s child list (in order), keeping the rest
on `src`.  The Go function panics when `dst == src` (pointer equality,
i.e. equal keys); the panic is the `none` result. -/
def reattachD (sm : SpanMap) (dstK srcK : ID) : SpanMap :=
  let dstSpan := ownSpanOf sm dstK
  let srcSub := childrenOf sm srcK
  let moved := srcSub.filter fun c => parentOf sm c = dstSpan
  let kept := srcSub.filter fun c => ¬ parentOf sm c = dstSpan
  let sm1 := nupd sm dstK fun d => ⟨d.sid, d.annotations, d.sub ++ moved⟩
  nupd sm1 srcK fun s => ⟨s.sid, s.annotations, kept⟩

/-- Go `memoryStore.reattachChildren(dst, src)` with its panic guard:
`none` is the panic, otherwise the body `reattachD`. -/
def reattachChildren (sm : SpanMap) (dstK srcK : ID) : Option SpanMap :=
  if dstK = srcK then none else some (reattachD sm dstK srcK)

/-- The span map of a trace; `[]` both for an unknown trace and for the
freshly initialized empty map of span.go lines 224-226. -/
def spansOf (ms : MemoryStore) (tid : ID) : SpanMap :=
  (alookup ms.span tid).getD []

/-- Step "create or update span" of `Collect` (span.go lines 229-240):
the per-trace span map after registering a fresh node for `id` (with the
given annotations and no children), or appending the annotations to the
already-registered node. -/
def sm1Of (ms : MemoryStore) (id : SpanID) (as : List Annotation) : SpanMap :=
  match alookup (spansOf ms id.trace) id.span with
  | none => aset (spansOf ms id.trace) id.span ⟨id, as, []⟩
  | some n => aset (spansOf ms id.trace) id.span ⟨n.sid, n.annotations ++ as, n.sub⟩

/-- The tail of the root-promotion fix-up (span.go lines 273-288), after
`reattachChildren(root, oldRoot)` produced `sm2`: re-insert the old root
(`insert(root, oldRoot)`, line 273), then move the old root's temporary
children — those whose stored parent is not the old root — onto the new
root's child list (lines 277-288). -/
def promoRest (sm2 : SpanMap) (newK oldK : ID) : SpanMap :=
  let sm3 := insertNode sm2 newK oldK
  let movedUp := (childrenOf sm3 oldK).filter
    fun c => ¬ parentOf sm3 c = ownSpanOf sm3 oldK
  let keep := (childrenOf sm3 oldK).filter
    fun c => parentOf sm3 c = ownSpanOf sm3 oldK
  nupd (nupd sm3 newK fun rr => ⟨rr.sid, rr.annotations, rr.sub ++ movedUp⟩) oldK
    fun o => ⟨o.sid, o.annotations, keep⟩

/-- Go `memoryStore.Collect` (span.go lines 215-304).  Returns `none`
exactly when the Go code would panic (inside `reattachChildren`), and
otherwise the updated store (the Go function then returns a nil error).

Step by step against the source: initialize the span map if needed
(224-226); create or update the span node (229-240); create the trace
root if absent (243-256); root-promotion check and fix-up (261-289);
general insertion of the node (293-295); self-reattachment (299-301).
After a promotion the local `root` variable equals `s`, so the guards
`s != root` of lines 293 and 299 fail and both steps are skipped. -/
def collect (ms : MemoryStore) (id : SpanID) (as : List Annotation) :
    Option MemoryStore :=
  let sm1 := sm1Of ms id as
  let rOld := alookup ms.trace id.trace
  let tm1 :=
    match rOld with
    | none => aset ms.trace id.trace id.span
    | some _ => ms.trace
  let root0 :=
    match rOld with
    | none => id.span
    | some r => r
  let rootParent := ((alookup sm1 root0).getD default).sid.parent
  if id.span ≠ root0 ∧ (id.parent = 0 ∨ rootParent = id.span) then
    -- Root promotion (261-289): s becomes the new root.
    let tm2 := aset tm1 id.trace id.span
    match reattachChildren sm1 id.span root0 with
    | none => none
    | some sm2 => some ⟨tm2, aset ms.span id.trace (promoRest sm2 id.span root0)⟩
  else
    let sm2 :=
      if ¬ id.parent = 0 ∧ id.span ≠ root0 then insertNode sm1 root0 id.span
      else sm1
    if id.span ≠ root0 then
      match reattachChildren sm2 id.span root0 with
      | none => none
      | some sm3 => some ⟨tm1, aset ms.span id.trace sm3⟩
    else some ⟨tm1, aset ms.span id.trace sm2⟩

/-- `collect` with the (never occurring) panic defaulted to the unchanged
store; convenience wrapper for chaining calls. -/
def collectD (ms : MemoryStore) (id : SpanID) (as : List Annotation) :
    MemoryStore :=
  (collect ms id as).getD ms

/-- Run a list of `Collect` calls, left to right, from a given store. -/
def collectList (ms : MemoryStore) : List (SpanID × List Annotation) → MemoryStore
  | [] => ms
  | c :: rest => collectList (collectD ms c.1 c.2) rest

/-- Run a list of `Collect` calls from the empty store. -/
def collectAll (calls : List (SpanID × List Annotation)) : MemoryStore :=
  collectList emptyStore calls

/-- Go `memoryStore.Trace` (span.go lines 345-354): the root node of the
given trace (represented by its key), or `none` for `ErrTraceNotFound`. -/
def traceRoot (ms : MemoryStore) (tid : ID) : Option ID :=
  alookup ms.trace tid


/-- The parent field a span-map key will report once the span `s` has
been registered: `s.parent` for the new key `s.span`, the stored parent
otherwise.  (Helper for stating the collection invariant.) -/
def pfShift (sm : SpanMap) (s : SpanID) (c : ID) : ID :=
  if c = s.span then s.parent else parentOf sm c

/-- Where a registered non-root node is attached in the store: under its
stored parent when that parent is registered, otherwise under the current
root as a temporary orphan (the fallback of `insert`, span.go 315-322). -/
def attachPoint (sm : SpanMap) (r x : ID) : ID :=
  if (alookup sm (parentOf sm x)).isSome then parentOf sm x else r

/-- The invariant of one trace's assembly state after the spans `S` have
been collected (each exactly once, in any order): every span of `S` has
its node registered under its span identifier with its original `SpanID`;
only those keys are registered; the designated root is one of them, and
it is the real root as soon as a real root span has been collected; a key
sits in exactly one child list, namely that of its attach point (its
stored parent if registered, the root otherwise), the root in none; child
lists have no duplicates. -/
structure InvSM (S : List SpanID) (sm : SpanMap) (r : ID) : Prop where
  node_sid : ∀ s ∈ S, ∃ nd, alookup sm s.span = some nd ∧ nd.sid = s
  keys_sub : ∀ k, (alookup sm k).isSome = true → k ∈ S.map SpanID.span
  root_mem : r ∈ S.map SpanID.span
  root_real : ∀ s ∈ S, s.parent = 0 → r = s.span
  sub_iff : ∀ x k, x ∈ childrenOf sm k ↔
    ((alookup sm x).isSome = true ∧ x ≠ r ∧ attachPoint sm r x = k)
  sub_nodup : ∀ k, (childrenOf sm k).Nodup

/-- A well-formed set of spans of one trace, as produced by
`NewRootSpanID` and `NewSpanID` (modelled from the spec, which keeps
`generateID` outside the given sources: identifiers are fresh, non-zero
and probabilistically unique): all spans carry the trace identifier `T`,
span identifiers are non-zero and pairwise distinct, no span is its own
parent, there is exactly one root span (Parent == zero), and every
non-root span's parent is the span identifier of a member. -/
structure WFTrace (T : ID) (L : List SpanID) : Prop where
  trace_eq : ∀ s ∈ L, s.trace = T
  span_ne_zero : ∀ s ∈ L, s.span ≠ 0
  no_self_parent : ∀ s ∈ L, s.parent ≠ s.span
  span_nodup : (L.map SpanID.span).Nodup
  root_unique : ∀ s ∈ L, ∀ u ∈ L, s.parent = 0 → u.parent = 0 → s = u
  parent_closed : ∀ s ∈ L, s.parent ≠ 0 → ∃ p ∈ L, p.span = s.parent
  root_mem : ∃ s ∈ L, s.parent = 0

/-- Store-level invariant: after collecting the spans `S` (all of trace
`T`) from the fresh store, either nothing was collected and the trace is
unknown, or both maps carry an entry for `T` satisfying `InvSM`. -/
def InvStore (T : ID) (S : List SpanID) (ms : MemoryStore) : Prop :=
  match S with
  | [] => alookup ms.span T = none ∧ alookup ms.trace T = none
  | _ :: _ => ∃ sm r, alookup ms.span T = some sm ∧
      alookup ms.trace T = some r ∧ InvSM S sm r

/-- Reachability along `Sub` child lists, from node `a` to node `c`. -/
inductive ReachableFrom (sm : SpanMap) : ID → ID → Prop where
  | refl (a : ID) : ReachableFrom sm a a
  | tail {a b c : ID} : ReachableFrom sm a b → c ∈ childrenOf sm b →
      ReachableFrom sm a c

/-! ## SpanID text encoding (span.go lines 29-44 and 87-114)

`SpanID.String` and `ParseSpanID` delegate the per-component work to
`ID.String` and `ParseID`, which live in the repository's `id.go`, a file
outside the given sources.  Modelled from the spec: each component is the
lower-case hexadecimal encoding of the identifier's raw eight bytes
(sixteen hex digits), and `ParseID` accepts a non-empty hexadecimal
string whose value fits in sixty-four bits.  Strings are represented as
`List Char`. -/

/-- One lower-case hexadecimal digit character. -/
def hexDigitChar (n : Nat) : Char :=
  if n < 10 then Char.ofNat (48 + n) else Char.ofNat (87 + n)

/-- The numeric value of a hexadecimal digit character, or `none`. -/
def hexVal (c : Char) : Option Nat :=
  if 48 ≤ c.toNat ∧ c.toNat ≤ 57 then some (c.toNat - 48)
  else if 97 ≤ c.toNat ∧ c.toNat ≤ 102 then some (c.toNat - 87)
  else if 65 ≤ c.toNat ∧ c.toNat ≤ 70 then some (c.toNat - 55)
  else none

/-- The `k` low hexadecimal digits of `n`, most significant first. -/
def toHexDigits : Nat → Nat → List Char
  | _, 0 => []
  | n, k + 1 => toHexDigits (n / 16) k ++ [hexDigitChar (n % 16)]

/-- Modelled from the spec: `ID.String` (id.go), the sixteen-digit
lower-case hexadecimal form of the sixty-four-bit identifier. -/
def idString (n : ID) : List Char :=
  toHexDigits n 16

/-- Left fold of hexadecimal digits, `none` on a non-digit. -/
def parseHexAux : Nat → List Char → Option Nat
  | acc, [] => some acc
  | acc, c :: rest =>
    match hexVal c with
    | none => none
    | some d => parseHexAux (acc * 16 + d) rest

/-- Modelled from the spec: `ParseID` (id.go), hexadecimal parsing of a
sixty-four-bit identifier; the empty string, a non-digit and overflow
fail. -/
def ParseID (s : List Char) : Option ID :=
  if s = [] then none
  else
    match parseHexAux 0 s with
    | none => none
    | some v => if v < 2 ^ 64 then some v else none

/-- Go `SpanID.String` (span.go lines 32-44): the slash-separated hex
components, the zero parent elided. -/
def spanIDString (id : SpanID) : List Char :=
  if id.parent = 0 then idString id.trace ++ '/' :: idString id.span
  else
    idString id.trace ++ '/' :: idString id.span ++ '/' :: idString id.parent

/-- Go `strings.Split` on the slash delimiter (span.go line 89). -/
def splitOnSlash : List Char → List (List Char)
  | [] => [[]]
  | c :: rest =>
    if c = '/' then [] :: splitOnSlash rest
    else
      match splitOnSlash rest with
      | [] => [[c]]
      | p :: ps => (c :: p) :: ps

/-- Go `ParseSpanID` (span.go lines 88-114): two or three slash-separated
components, each a valid identifier; `none` is `ErrBadSpanID`. -/
def ParseSpanID (s : List Char) : Option SpanID :=
  match splitOnSlash s with
  | [a, b] =>
    match ParseID a, ParseID b with
    | some t, some sp => some ⟨t, sp, 0⟩
    | _, _ => none
  | [a, b, c] =>
    match ParseID a, ParseID b, ParseID c with
    | some t, some sp, some p => some ⟨t, sp, p⟩
    | _, _, _ => none
  | _ => none

/-! ## Basic lookup lemmas for the map operations -/

theorem alookup_aset {α : Type} (m : List (ID × α)) (k : ID) (v : α) (k' : ID) :
    alookup (aset m k v) k' = if k' = k then some v else alookup m k' := by
  induction m with
  | nil =>
    by_cases h : k' = k <;> simp [aset, alookup, h]
  | cons p rest ih =>
    obtain ⟨k0, v0⟩ := p
    by_cases h0 : k = k0
    · subst h0
      by_cases h : k' = k <;> simp [aset, alookup, h]
    · by_cases h : k' = k0
      · subst h
        have hkk : ¬ k' = k := fun hc => h0 hc.symm
        simp [aset, h0, alookup, hkk]
      · simp [aset, h0, alookup, h, ih]

theorem alookup_nupd (sm : SpanMap) (k : ID) (f : TraceNode → TraceNode) (k' : ID) :
    alookup (nupd sm k f) k' =
      if k' = k then (alookup sm k).map f else alookup sm k' := by
  induction sm with
  | nil => by_cases h : k' = k <;> simp [nupd, alookup, h]
  | cons p rest ih =>
    obtain ⟨k0, v0⟩ := p
    by_cases h0 : k0 = k
    · subst h0
      by_cases h : k' = k0 <;> simp [nupd, alookup, h, ih]
    · by_cases h : k' = k0
      · subst h
        have hkk : ¬ k' = k := h0
        simp [nupd, alookup, h0, hkk]
      · have hk : ¬ k = k0 := fun hc => h0 hc.symm
        simp [nupd, alookup, h0, h, hk, ih]

theorem alookup_isSome_nupd (sm : SpanMap) (k : ID) (f : TraceNode → TraceNode)
    (x : ID) : (alookup (nupd sm k f) x).isSome = (alookup sm x).isSome := by
  rw [alookup_nupd]
  by_cases h : x = k <;> simp [h]

theorem sid_nupd (sm : SpanMap) (k : ID) (f : TraceNode → TraceNode) (x : ID)
    (hf : ∀ n, (f n).sid = n.sid) :
    (alookup (nupd sm k f) x).map TraceNode.sid = (alookup sm x).map TraceNode.sid := by
  rw [alookup_nupd]
  by_cases h : x = k
  · subst h
    cases halt : alookup sm x <;> simp [hf]
  · simp [h]

theorem parentOf_nupd (sm : SpanMap) (k : ID) (f : TraceNode → TraceNode) (x : ID)
    (hf : ∀ n, (f n).sid = n.sid) :
    parentOf (nupd sm k f) x = parentOf sm x := by
  unfold parentOf
  rw [alookup_nupd]
  by_cases h : x = k
  · subst h
    cases halt : alookup sm x <;> simp [hf]
  · simp [h]

theorem childrenOf_nupd_ne (sm : SpanMap) (k : ID) (f : TraceNode → TraceNode)
    (x : ID) (h : x ≠ k) : childrenOf (nupd sm k f) x = childrenOf sm x := by
  unfold childrenOf
  rw [alookup_nupd, if_neg h]

theorem childrenOf_nupd_self (sm : SpanMap) (k : ID) (f : TraceNode → TraceNode)
    (nd : TraceNode) (h : alookup sm k = some nd) :
    childrenOf (nupd sm k f) k = (f nd).sub := by
  unfold childrenOf
  rw [alookup_nupd, if_pos rfl, h]
  rfl

theorem childrenOf_nupd_absent (sm : SpanMap) (k : ID) (f : TraceNode → TraceNode)
    (h : alookup sm k = none) : childrenOf (nupd sm k f) k = childrenOf sm k := by
  unfold childrenOf
  rw [alookup_nupd, if_pos rfl, h]
  simp

/-- The successful unfolding of `reattachChildren` (Go lines 331-342),
available whenever the panic guard `dst == src` does not fire. -/
theorem reattachChildren_eq (sm : SpanMap) (dstK srcK : ID) (h : dstK ≠ srcK) :
    reattachChildren sm dstK srcK = some (nupd
      (nupd sm dstK fun d => ⟨d.sid, d.annotations, d.sub ++
        (childrenOf sm srcK).filter fun c =>
          parentOf sm c = ((alookup sm dstK).getD default).sid.span⟩)
      srcK fun s => ⟨s.sid, s.annotations,
        (childrenOf sm srcK).filter fun c =>
          ¬ parentOf sm c = ((alookup sm dstK).getD default).sid.span⟩) := by
  simp only [reattachChildren, if_neg h]
  rfl

theorem reattachChildren_isSome (sm : SpanMap) (dstK srcK : ID) (h : dstK ≠ srcK) :
    (reattachChildren sm dstK srcK).isSome = true := by
  rw [reattachChildren_eq sm dstK srcK h]
  rfl

/-- C6: for every store state, span identifier and annotation list, the
in-memory `Collect` returns a nil error and never aborts: the
`dst == src` panic inside `reattachChildren` is unreachable from
`Collect`, because both call sites are guarded by `s != root`.  In the
model: `collect` always returns `some`. -/
theorem C6_collect_infallible (ms : MemoryStore) (id : SpanID)
    (as : List Annotation) : (collect ms id as).isSome = true := by
  unfold collect
  dsimp only
  split
  next h =>
    obtain ⟨hne, -⟩ := h
    rw [reattachChildren_eq _ _ _ hne]
    rfl
  next h =>
    split
    next hne =>
      rw [reattachChildren_eq _ _ _ hne]
      rfl
    next => rfl

theorem reattachChildren_some (sm : SpanMap) (dstK srcK : ID) (h : dstK ≠ srcK) :
    reattachChildren sm dstK srcK = some (reattachD sm dstK srcK) := if_neg h

/-! ## Branch characterizations of `collect` -/

/-- First span of an unknown trace: the node is created and becomes the
(possibly temporary) root; the promotion check and both the insertion and
the self-reattachment are skipped because `s == root`. -/
theorem collect_bootstrap (ms : MemoryStore) (id : SpanID) (as : List Annotation)
    (hr : alookup ms.trace id.trace = none) :
    collect ms id as = some ⟨aset ms.trace id.trace id.span,
      aset ms.span id.trace (sm1Of ms id as)⟩ := by
  unfold collect
  rw [hr]
  simp

/-- Collecting a span that is currently the trace root only updates the
node (annotation append); everything else is skipped. -/
theorem collect_at_root (ms : MemoryStore) (id : SpanID) (as : List Annotation)
    (hr : alookup ms.trace id.trace = some id.span) :
    collect ms id as = some ⟨ms.trace, aset ms.span id.trace (sm1Of ms id as)⟩ := by
  unfold collect
  rw [hr]
  simp

/-- The root-promotion branch (span.go lines 261-289). -/
theorem collect_promo (ms : MemoryStore) (id : SpanID) (as : List Annotation)
    (r : ID) (hr : alookup ms.trace id.trace = some r) (hne : id.span ≠ r)
    (hcond : id.parent = 0 ∨
      ((alookup (sm1Of ms id as) r).getD default).sid.parent = id.span) :
    collect ms id as = some ⟨aset ms.trace id.trace id.span,
      aset ms.span id.trace
        (promoRest (reattachD (sm1Of ms id as) id.span r) id.span r)⟩ := by
  unfold collect
  rw [hr]
  simp only
  rw [if_pos ⟨hne, hcond⟩, reattachChildren_some _ _ _ hne]

/-- The non-promotion branch for a span that is not the current root:
general insertion (span.go lines 293-295, skipped for a root SpanID) and
self-reattachment (lines 299-301). -/
theorem collect_nopromo (ms : MemoryStore) (id : SpanID) (as : List Annotation)
    (r : ID) (hr : alookup ms.trace id.trace = some r) (hne : id.span ≠ r)
    (hcond : ¬ (id.parent = 0 ∨
      ((alookup (sm1Of ms id as) r).getD default).sid.parent = id.span)) :
    collect ms id as = some ⟨ms.trace,
      aset ms.span id.trace (reattachD
        (if ¬ id.parent = 0 ∧ id.span ≠ r then insertNode (sm1Of ms id as) r id.span
         else sm1Of ms id as) id.span r)⟩ := by
  unfold collect
  rw [hr]
  simp only
  rw [if_neg (fun hc => hcond hc.2), if_pos hne, reattachChildren_some _ _ _ hne]

theorem alookup_sm1Of_ne (ms : MemoryStore) (id : SpanID) (as : List Annotation)
    (k : ID) (h : k ≠ id.span) :
    alookup (sm1Of ms id as) k = alookup (spansOf ms id.trace) k := by
  unfold sm1Of
  cases halt : alookup (spansOf ms id.trace) id.span <;>
    simp [alookup_aset, h]

theorem alookup_sm1Of_fresh (ms : MemoryStore) (id : SpanID) (as : List Annotation)
    (h : alookup (spansOf ms id.trace) id.span = none) :
    alookup (sm1Of ms id as) id.span = some ⟨id, as, []⟩ := by
  unfold sm1Of
  rw [h]
  simp [alookup_aset]

/-! ## Claims settled by direct evaluation -/

/-- C3: the claim fails on the code.  Failing input: collect the root
R = (trace 1, span 1, parent 0), then the child A = (1, 2, 1), then A
again (a re-collection with no new annotations).  Because the insertion
of span.go line 293 is not guarded on the span being newly created, the
second collection of A runs `insert(root, A)` again and the root's child
list becomes `[A, A]`: a duplicate child link, the node A appears twice
in the tree. -/
theorem C3_recollect_duplicates_child_link :
    childrenOf (spansOf (collectAll
      [(⟨1, 1, 0⟩, []), (⟨1, 2, 1⟩, []), (⟨1, 2, 1⟩, [])]) 1) 1 = [2, 2] := by
  decide

/-- C4 counterexample: the claim promises the temporary-root designation
is corrected as soon as an ancestor of the temporary root is collected.
Take the trace 1 with spans A = (1,1,0), B = (1,2,1), C = (1,3,2),
D = (1,4,3); collect D first (D becomes temporary root), then collect the
ancestor B of D (witnessed by B.span = C.parent and C.span = D.parent,
first two conjuncts).  After that Collect call the root pointer still
designates the old temporary root D (span 4): the code only promotes on
the direct parent of the temporary root or on a real root span. -/
theorem C4_counterexample_ancestor_no_promotion :
    (SpanID.mk 1 2 1).span = (SpanID.mk 1 3 2).parent ∧
    (SpanID.mk 1 3 2).span = (SpanID.mk 1 4 3).parent ∧
    traceRoot (collectAll [(⟨1, 4, 3⟩, []), (⟨1, 2, 1⟩, [])]) 1 = some 4 := by
  decide

/-- C4 (amended): for every trace whose current root is a temporary root
(non-zero stored Parent), the designation is corrected as soon as either
a real root span (Parent == zero) or the direct parent of the temporary
root is collected (under a distinct span identifier): after that Collect
call the trace's root pointer designates the newly collected span, no
longer the old temporary root. -/
theorem C4_temp_root_corrected (ms : MemoryStore) (id : SpanID)
    (as : List Annotation) (r : ID) (rootNd : TraceNode)
    (hr : alookup ms.trace id.trace = some r)
    (hnd : alookup (spansOf ms id.trace) r = some rootNd)
    (htemp : rootNd.sid.parent ≠ 0)
    (hne : id.span ≠ r)
    (harrive : id.parent = 0 ∨ rootNd.sid.parent = id.span) :
    traceRoot (collectD ms id as) id.trace = some id.span := by
  have hcond : id.parent = 0 ∨
      ((alookup (sm1Of ms id as) r).getD default).sid.parent = id.span := by
    rcases harrive with h | h
    · exact Or.inl h
    · right
      rw [alookup_sm1Of_ne ms id as r (fun hc => hne hc.symm), hnd]
      exact h
  rw [collectD, collect_promo ms id as r hr hne hcond]
  unfold traceRoot
  simp [alookup_aset]

theorem C4_temp_root_corrected_witness :
    traceRoot (collectD (collectAll [(⟨1, 4, 3⟩, [])]) ⟨1, 3, 2⟩ []) 1 = some 3 :=
  C4_temp_root_corrected (collectAll [(⟨1, 4, 3⟩, [])]) ⟨1, 3, 2⟩ [] 4
    ⟨⟨1, 4, 3⟩, [], []⟩ (by decide) (by decide) (by decide) (by decide)
    (by decide)

/-! ## State-tracking lemmas for `reattachD` and `insertNode` -/

theorem sid_reattachD (sm : SpanMap) (dstK srcK x : ID) :
    (alookup (reattachD sm dstK srcK) x).map TraceNode.sid =
      (alookup sm x).map TraceNode.sid := by
  unfold reattachD
  dsimp only
  rw [sid_nupd, sid_nupd]
  · exact fun n => rfl
  · exact fun n => rfl

theorem parentOf_reattachD (sm : SpanMap) (dstK srcK x : ID) :
    parentOf (reattachD sm dstK srcK) x = parentOf sm x := by
  unfold reattachD
  dsimp only
  rw [parentOf_nupd, parentOf_nupd]
  · exact fun n => rfl
  · exact fun n => rfl

theorem ownSpanOf_reattachD (sm : SpanMap) (dstK srcK x : ID) :
    ownSpanOf (reattachD sm dstK srcK) x = ownSpanOf sm x := by
  have h := sid_reattachD sm dstK srcK x
  unfold ownSpanOf
  cases h1 : alookup (reattachD sm dstK srcK) x <;>
    cases h2 : alookup sm x <;> rw [h1, h2] at h <;> simp at h <;> simp [h]

theorem isSome_reattachD (sm : SpanMap) (dstK srcK x : ID) :
    (alookup (reattachD sm dstK srcK) x).isSome = (alookup sm x).isSome := by
  unfold reattachD
  dsimp only
  rw [alookup_isSome_nupd, alookup_isSome_nupd]

theorem childrenOf_reattachD_dst (sm : SpanMap) (dstK srcK : ID)
    (h : dstK ≠ srcK) (nd : TraceNode) (hdst : alookup sm dstK = some nd) :
    childrenOf (reattachD sm dstK srcK) dstK =
      childrenOf sm dstK ++
        (childrenOf sm srcK).filter fun c => parentOf sm c = ownSpanOf sm dstK := by
  unfold reattachD
  dsimp only
  rw [childrenOf_nupd_ne _ _ _ _ h, childrenOf_nupd_self _ _ _ _ hdst]
  unfold childrenOf
  rw [hdst]
  rfl

theorem childrenOf_reattachD_src (sm : SpanMap) (dstK srcK : ID)
    (h : dstK ≠ srcK) (nd : TraceNode) (hsrc : alookup sm srcK = some nd) :
    childrenOf (reattachD sm dstK srcK) srcK =
      (childrenOf sm srcK).filter fun c => ¬ parentOf sm c = ownSpanOf sm dstK := by
  unfold reattachD
  dsimp only
  have hsrc' : alookup (nupd sm dstK fun d =>
      ⟨d.sid, d.annotations, d.sub ++ (childrenOf sm srcK).filter fun c =>
        parentOf sm c = ownSpanOf sm dstK⟩) srcK = some nd := by
    rw [alookup_nupd, if_neg (fun hc => h hc.symm)]
    exact hsrc
  rw [childrenOf_nupd_self _ _ _ _ hsrc']

theorem childrenOf_reattachD_other (sm : SpanMap) (dstK srcK x : ID)
    (h1 : x ≠ dstK) (h2 : x ≠ srcK) :
    childrenOf (reattachD sm dstK srcK) x = childrenOf sm x := by
  unfold reattachD
  dsimp only
  rw [childrenOf_nupd_ne _ _ _ _ h2, childrenOf_nupd_ne _ _ _ _ h1]

theorem insertNode_present (sm : SpanMap) (rootK tK : ID) (pnd : TraceNode)
    (h : alookup sm (parentOf sm tK) = some pnd) :
    insertNode sm rootK tK = nupd sm (parentOf sm tK)
      fun p => ⟨p.sid, p.annotations, p.sub ++ [tK]⟩ := by
  unfold insertNode
  dsimp only
  rw [h]

theorem insertNode_absent (sm : SpanMap) (rootK tK : ID)
    (h : alookup sm (parentOf sm tK) = none) :
    insertNode sm rootK tK = nupd sm rootK
      fun r => ⟨r.sid, r.annotations, r.sub ++ [tK]⟩ := by
  unfold insertNode
  dsimp only
  rw [h]

theorem sid_insertNode (sm : SpanMap) (rootK tK x : ID) :
    (alookup (insertNode sm rootK tK) x).map TraceNode.sid =
      (alookup sm x).map TraceNode.sid := by
  unfold insertNode
  dsimp only
  cases h : alookup sm (parentOf sm tK) <;>
    · rw [sid_nupd]
      exact fun n => rfl

theorem parentOf_insertNode (sm : SpanMap) (rootK tK x : ID) :
    parentOf (insertNode sm rootK tK) x = parentOf sm x := by
  unfold insertNode
  dsimp only
  cases h : alookup sm (parentOf sm tK) <;>
    · rw [parentOf_nupd]
      exact fun n => rfl

theorem ownSpanOf_insertNode (sm : SpanMap) (rootK tK x : ID) :
    ownSpanOf (insertNode sm rootK tK) x = ownSpanOf sm x := by
  have h := sid_insertNode sm rootK tK x
  unfold ownSpanOf
  cases h1 : alookup (insertNode sm rootK tK) x <;>
    cases h2 : alookup sm x <;> rw [h1, h2] at h <;> simp at h <;> simp [h]

theorem isSome_insertNode (sm : SpanMap) (rootK tK x : ID) :
    (alookup (insertNode sm rootK tK) x).isSome = (alookup sm x).isSome := by
  unfold insertNode
  dsimp only
  cases h : alookup sm (parentOf sm tK) <;> rw [alookup_isSome_nupd]

/-- C10: if a root span (stored Parent == zero) is already the tree's
root and a second, distinct, not yet collected span of the same trace
with Parent == zero is collected, then the newly collected span becomes
the root returned by `Trace`, and the previous root is demoted to a child
of the new root (its zero parent identifier is never a key of the span
map, so it is parked as an orphan child of the new root): the
last-collected root wins. -/
theorem C10_last_root_wins (ms : MemoryStore) (id : SpanID) (as : List Annotation)
    (r : ID) (rootNd : TraceNode)
    (hr : alookup ms.trace id.trace = some r)
    (hnd : alookup (spansOf ms id.trace) r = some rootNd)
    (hroot0 : rootNd.sid.parent = 0)
    (hisroot : id.parent = 0)
    (hne : id.span ≠ r)
    (hfresh : alookup (spansOf ms id.trace) id.span = none)
    (hzero : alookup (spansOf ms id.trace) 0 = none)
    (hs0 : id.span ≠ 0) :
    traceRoot (collectD ms id as) id.trace = some id.span ∧
    r ∈ childrenOf (spansOf (collectD ms id as) id.trace) id.span := by
  have hne' : r ≠ id.span := fun hc => hne hc.symm
  have h1self : alookup (sm1Of ms id as) id.span = some ⟨id, as, []⟩ :=
    alookup_sm1Of_fresh ms id as hfresh
  have h1r : alookup (sm1Of ms id as) r = some rootNd := by
    rw [alookup_sm1Of_ne ms id as r hne']
    exact hnd
  have h1zero : alookup (sm1Of ms id as) 0 = none := by
    rw [alookup_sm1Of_ne ms id as 0 (fun hc => hs0 hc.symm)]
    exact hzero
  rw [collectD, collect_promo ms id as r hr hne (Or.inl hisroot)]
  refine ⟨?_, ?_⟩
  · unfold traceRoot
    simp [alookup_aset]
  · unfold spansOf
    rw [Option.getD_some]
    dsimp only
    rw [alookup_aset, if_pos rfl, Option.getD_some]
    have h2self : alookup (reattachD (sm1Of ms id as) id.span r) id.span =
        some ⟨id, as, (childrenOf (sm1Of ms id as) r).filter fun c =>
          parentOf (sm1Of ms id as) c = ownSpanOf (sm1Of ms id as) id.span⟩ := by
      unfold reattachD
      dsimp only
      rw [alookup_nupd, if_neg hne, alookup_nupd, if_pos rfl, h1self]
      rfl
    have h2par : parentOf (reattachD (sm1Of ms id as) id.span r) r = 0 := by
      rw [parentOf_reattachD]
      unfold parentOf
      rw [h1r]
      exact hroot0
    have h2zero : alookup (reattachD (sm1Of ms id as) id.span r) 0 = none := by
      have hs := isSome_reattachD (sm1Of ms id as) id.span r 0
      rw [h1zero] at hs
      cases hx : alookup (reattachD (sm1Of ms id as) id.span r) 0
      · rfl
      · rw [hx] at hs
        simp at hs
    have hins : insertNode (reattachD (sm1Of ms id as) id.span r) id.span r =
        nupd (reattachD (sm1Of ms id as) id.span r) id.span
          fun n => ⟨n.sid, n.annotations, n.sub ++ [r]⟩ := by
      apply insertNode_absent
      rw [h2par]
      exact h2zero
    unfold promoRest
    dsimp only
    rw [hins]
    have h3self : alookup (nupd (reattachD (sm1Of ms id as) id.span r) id.span
        fun n => ⟨n.sid, n.annotations, n.sub ++ [r]⟩) id.span =
        some ⟨id, as, ((childrenOf (sm1Of ms id as) r).filter fun c =>
          parentOf (sm1Of ms id as) c = ownSpanOf (sm1Of ms id as) id.span) ++ [r]⟩ := by
      rw [alookup_nupd, if_pos rfl, h2self]
      rfl
    rw [childrenOf_nupd_ne _ _ _ _ hne, childrenOf_nupd_self _ _ _ _ h3self]
    simp

theorem C10_last_root_wins_witness :
    traceRoot (collectD (collectAll [(⟨1, 1, 0⟩, [])]) ⟨1, 5, 0⟩ []) 1 = some 5 ∧
    1 ∈ childrenOf (spansOf (collectD (collectAll [(⟨1, 1, 0⟩, [])]) ⟨1, 5, 0⟩ []) 1) 5 :=
  C10_last_root_wins (collectAll [(⟨1, 1, 0⟩, [])]) ⟨1, 5, 0⟩ [] 1
    ⟨⟨1, 1, 0⟩, [], []⟩ (by decide) (by decide) (by decide) (by decide)
    (by decide) (by decide) (by decide) (by decide)

/-! ## The trace map across `Collect` -/

/-- One `Collect` call creates or keeps the trace entry for `id.Trace`
and leaves every other trace entry untouched. -/
theorem collectD_trace_char (ms : MemoryStore) (id : SpanID) (as : List Annotation) :
    (∀ x, x ≠ id.trace →
      alookup (collectD ms id as).trace x = alookup ms.trace x) ∧
    (alookup (collectD ms id as).trace id.trace).isSome = true := by
  cases hr : alookup ms.trace id.trace with
  | none =>
    rw [collectD, collect_bootstrap ms id as hr]
    constructor
    · intro x hx
      simp [alookup_aset, hx]
    · simp [alookup_aset]
  | some r =>
    by_cases heq : id.span = r
    · subst heq
      rw [collectD, collect_at_root ms id as hr]
      constructor
      · intro x hx
        rfl
      · simp [hr]
    · by_cases hcond : id.parent = 0 ∨
        ((alookup (sm1Of ms id as) r).getD default).sid.parent = id.span
      · rw [collectD, collect_promo ms id as r hr heq hcond]
        constructor
        · intro x hx
          simp [alookup_aset, hx]
        · simp [alookup_aset]
      · rw [collectD, collect_nopromo ms id as r hr heq hcond]
        constructor
        · intro x hx
          rfl
        · simp [hr]

theorem traceRoot_collectList_none (calls : List (SpanID × List Annotation)) :
    ∀ (ms : MemoryStore) (x : ID),
    (traceRoot (collectList ms calls) x = none ↔
      (alookup ms.trace x = none ∧ x ∉ calls.map fun c => c.1.trace)) := by
  induction calls with
  | nil =>
    intro ms x
    simp [collectList, traceRoot]
  | cons c rest ih =>
    intro ms x
    rw [collectList, ih]
    obtain ⟨hother, hself⟩ := collectD_trace_char ms c.1 c.2
    by_cases hx : x = c.1.trace
    · subst hx
      constructor
      · rintro ⟨hnone, -⟩
        rw [hnone] at hself
        cases hself
      · rintro ⟨-, hnotin⟩
        exact absurd (by simp) hnotin
    · rw [hother x hx]
      constructor
      · rintro ⟨h1, h2⟩
        exact ⟨h1, by simpa [hx] using h2⟩
      · rintro ⟨h1, h2⟩
        exact ⟨h1, by simpa [hx] using h2⟩

/-- C9: for every sequence of `Collect` calls starting from the fresh
store and every trace identifier `x`, `Trace(x)` returns the
trace-not-found error (modelled by `none`) if and only if no `Collect`
call for trace `x` has ever occurred; otherwise it returns the current
root of trace `x` (a `some` result, no error). -/
theorem C9_trace_not_found_iff (calls : List (SpanID × List Annotation)) (x : ID) :
    traceRoot (collectAll calls) x = none ↔
      x ∉ calls.map fun c => c.1.trace := by
  rw [collectAll, traceRoot_collectList_none]
  simp [emptyStore, alookup]

/-! ## Annotations across `Collect` -/

theorem ann_nupd (sm : SpanMap) (k : ID) (f : TraceNode → TraceNode) (x : ID)
    (hf : ∀ n, (f n).annotations = n.annotations) :
    (alookup (nupd sm k f) x).map TraceNode.annotations =
      (alookup sm x).map TraceNode.annotations := by
  rw [alookup_nupd]
  by_cases h : x = k
  · subst h
    cases halt : alookup sm x <;> simp [hf]
  · simp [h]

theorem ann_reattachD (sm : SpanMap) (dstK srcK x : ID) :
    (alookup (reattachD sm dstK srcK) x).map TraceNode.annotations =
      (alookup sm x).map TraceNode.annotations := by
  unfold reattachD
  dsimp only
  rw [ann_nupd, ann_nupd]
  · exact fun n => rfl
  · exact fun n => rfl

theorem ann_insertNode (sm : SpanMap) (rootK tK x : ID) :
    (alookup (insertNode sm rootK tK) x).map TraceNode.annotations =
      (alookup sm x).map TraceNode.annotations := by
  unfold insertNode
  dsimp only
  cases h : alookup sm (parentOf sm tK) <;>
    · rw [ann_nupd]
      exact fun n => rfl

theorem ann_promoRest (sm2 : SpanMap) (newK oldK x : ID) :
    (alookup (promoRest sm2 newK oldK) x).map TraceNode.annotations =
      (alookup sm2 x).map TraceNode.annotations := by
  unfold promoRest
  dsimp only
  rw [ann_nupd, ann_nupd, ann_insertNode]
  · exact fun n => rfl
  · exact fun n => rfl

theorem ann_sm1Of (ms : MemoryStore) (id : SpanID) (as : List Annotation) (k : ID) :
    (alookup (sm1Of ms id as) k).map TraceNode.annotations =
      if k = id.span then
        some ((((alookup (spansOf ms id.trace) id.span).map
          TraceNode.annotations).getD []) ++ as)
      else (alookup (spansOf ms id.trace) k).map TraceNode.annotations := by
  unfold sm1Of
  cases halt : alookup (spansOf ms id.trace) id.span <;>
    · rw [alookup_aset]
      by_cases h : k = id.span <;> simp [h]

/-- After the create-or-update step, no later step of `Collect` changes
any node's annotation list (they only rearrange child lists). -/
theorem ann_collectD (ms : MemoryStore) (id : SpanID) (as : List Annotation) (k : ID) :
    (alookup (spansOf (collectD ms id as) id.trace) k).map TraceNode.annotations =
      (alookup (sm1Of ms id as) k).map TraceNode.annotations := by
  cases hr : alookup ms.trace id.trace with
  | none =>
    rw [collectD, collect_bootstrap ms id as hr]
    unfold spansOf
    simp [alookup_aset]
  | some r =>
    by_cases heq : id.span = r
    · subst heq
      rw [collectD, collect_at_root ms id as hr]
      unfold spansOf
      simp [alookup_aset]
    · by_cases hcond : id.parent = 0 ∨
        ((alookup (sm1Of ms id as) r).getD default).sid.parent = id.span
      · rw [collectD, collect_promo ms id as r hr heq hcond]
        unfold spansOf
        rw [Option.getD_some]
        dsimp only
        rw [alookup_aset, if_pos rfl, Option.getD_some, ann_promoRest, ann_reattachD]
      · rw [collectD, collect_nopromo ms id as r hr heq hcond]
        unfold spansOf
        rw [Option.getD_some]
        dsimp only
        rw [alookup_aset, if_pos rfl, Option.getD_some, ann_reattachD]
        by_cases hins : ¬ id.parent = 0 ∧ id.span ≠ r
        · rw [if_pos hins, ann_insertNode]
        · rw [if_neg hins]

/-- C8: for every store in which the span is not yet registered and every
pair of annotation lists A and B, collecting that SpanID first with A and
then with B yields a span whose annotation sequence is A followed by B,
in that order. -/
theorem C8_annotations_append (ms : MemoryStore) (id : SpanID)
    (A B : List Annotation)
    (hfresh : alookup (spansOf ms id.trace) id.span = none) :
    (alookup (spansOf (collectD (collectD ms id A) id B) id.trace) id.span).map
      TraceNode.annotations = some (A ++ B) := by
  have h1 : (alookup (spansOf (collectD ms id A) id.trace) id.span).map
      TraceNode.annotations = some A := by
    rw [ann_collectD, ann_sm1Of, if_pos rfl, hfresh]
    simp
  rw [ann_collectD, ann_sm1Of, if_pos rfl, h1]
  simp

theorem C8_annotations_append_witness :
    (alookup (spansOf (collectD (collectD emptyStore ⟨1, 1, 0⟩
        [⟨"color", [1]⟩]) ⟨1, 1, 0⟩ [⟨"size", [2]⟩]) 1) 1).map
      TraceNode.annotations = some [⟨"color", [1]⟩, ⟨"size", [2]⟩] :=
  C8_annotations_append emptyStore ⟨1, 1, 0⟩ [⟨"color", [1]⟩] [⟨"size", [2]⟩]
    (by decide)

/-! ## Consequences of the invariant -/

theorem parentOf_map_sid (sm : SpanMap) (x : ID) :
    parentOf sm x =
      (((alookup sm x).map TraceNode.sid).getD ⟨0, 0, 0⟩).parent := by
  unfold parentOf
  cases h : alookup sm x <;> rfl

theorem InvSM.mem_inKeys {S : List SpanID} {sm : SpanMap} {r : ID}
    (h : InvSM S sm r) {x k : ID} (hx : x ∈ childrenOf sm k) :
    (alookup sm x).isSome = true := ((h.sub_iff x k).mp hx).1

theorem InvSM.mem_ne_root {S : List SpanID} {sm : SpanMap} {r : ID}
    (h : InvSM S sm r) {x k : ID} (hx : x ∈ childrenOf sm k) : x ≠ r :=
  ((h.sub_iff x k).mp hx).2.1

theorem InvSM.mem_attach {S : List SpanID} {sm : SpanMap} {r : ID}
    (h : InvSM S sm r) {x k : ID} (hx : x ∈ childrenOf sm k) :
    attachPoint sm r x = k := ((h.sub_iff x k).mp hx).2.2

theorem InvSM.root_not_mem {S : List SpanID} {sm : SpanMap} {r : ID}
    (h : InvSM S sm r) (k : ID) : r ∉ childrenOf sm k :=
  fun hm => (h.mem_ne_root hm) rfl

theorem InvSM.not_mem_of_absent {S : List SpanID} {sm : SpanMap} {r : ID}
    (h : InvSM S sm r) {x : ID} (hx : alookup sm x = none) (k : ID) :
    x ∉ childrenOf sm k := by
  intro hm
  have := h.mem_inKeys hm
  rw [hx] at this
  cases this

theorem InvSM.isSome_span {S : List SpanID} {sm : SpanMap} {r : ID}
    (h : InvSM S sm r) {u : SpanID} (hu : u ∈ S) :
    (alookup sm u.span).isSome = true := by
  obtain ⟨nd, hnd, -⟩ := h.node_sid u hu
  rw [hnd]
  rfl

theorem InvSM.parentOf_span {S : List SpanID} {sm : SpanMap} {r : ID}
    (h : InvSM S sm r) {u : SpanID} (hu : u ∈ S) :
    parentOf sm u.span = u.parent := by
  obtain ⟨nd, hnd, hsid⟩ := h.node_sid u hu
  unfold parentOf
  rw [hnd]
  simp [hsid]

theorem InvSM.isSome_root {S : List SpanID} {sm : SpanMap} {r : ID}
    (h : InvSM S sm r) : (alookup sm r).isSome = true := by
  obtain ⟨sr, hsr, hspan⟩ := List.mem_map.mp h.root_mem
  rw [← hspan]
  exact h.isSome_span hsr

/-! ## The induction step of the collection invariant -/

/-- Core step, shape one: a fresh non-root span whose stored parent is
the current root or is not registered.  In both cases `insert` appends it
to the root's child list (as a genuine child or as a temporary orphan),
and the self-reattachment then pulls the root's children whose parent is
the new span under the new node.  The resulting child lists are exactly
the two filters of the root's extended list, everything else unchanged. -/
theorem invSM_step_rootattach
    (S : List SpanID) (sm : SpanMap) (r : ID) (hInv : InvSM S sm r)
    (s : SpanID) (sm' : SpanMap)
    (hfresh : alookup sm s.span = none)
    (hp0 : s.parent ≠ 0)
    (hps : s.parent ≠ s.span)
    (hpr : s.parent = r ∨ alookup sm s.parent = none)
    (hkeys : ∀ k, (alookup sm' k).isSome = true ↔
      (k = s.span ∨ (alookup sm k).isSome = true))
    (hsid : ∀ k, (alookup sm' k).map TraceNode.sid =
      if k = s.span then some s else (alookup sm k).map TraceNode.sid)
    (hch : ∀ k, childrenOf sm' k =
      if k = s.span then
        (childrenOf sm r ++ [s.span]).filter fun c => pfShift sm s c = s.span
      else if k = r then
        (childrenOf sm r ++ [s.span]).filter fun c => ¬ pfShift sm s c = s.span
      else childrenOf sm k) :
    InvSM (s :: S) sm' r := by
  have hrne : r ≠ s.span := by
    intro hc
    have := hInv.isSome_root
    rw [hc, hfresh] at this
    cases this
  have hsr : s.span ≠ r := fun hc => hrne hc.symm
  have hpf : ∀ x, parentOf sm' x = pfShift sm s x := by
    intro x
    rw [parentOf_map_sid sm' x, hsid x]
    unfold pfShift
    by_cases hx : x = s.span
    · simp [hx]
    · rw [if_neg hx, if_neg hx, ← parentOf_map_sid]
  have hap : ∀ x, attachPoint sm' r x =
      if pfShift sm s x = s.span ∨ (alookup sm (pfShift sm s x)).isSome = true
      then pfShift sm s x else r := by
    intro x
    unfold attachPoint
    rw [hpf x]
    have hiff := hkeys (pfShift sm s x)
    by_cases hc : (alookup sm' (pfShift sm s x)).isSome = true
    · rw [if_pos hc, if_pos (hiff.mp hc)]
    · rw [if_neg hc, if_neg (fun hcc => hc (hiff.mpr hcc))]
  have hPx : pfShift sm s s.span = s.parent := by
    unfold pfShift
    rw [if_pos rfl]
  have hPother : ∀ x, x ≠ s.span → pfShift sm s x = parentOf sm x := by
    intro x hx
    unfold pfShift
    rw [if_neg hx]
  refine ⟨?_, ?_, ?_, ?_, ?_, ?_⟩
  · -- node_sid
    intro u hu
    rcases List.mem_cons.mp hu with hu | hu
    · subst hu
      have h1 := hsid u.span
      rw [if_pos rfl] at h1
      obtain ⟨nd, hnd, hnds⟩ := Option.map_eq_some'.mp h1
      exact ⟨nd, hnd, hnds⟩
    · obtain ⟨nd, hnd, hnds⟩ := hInv.node_sid u hu
      have hune : u.span ≠ s.span := by
        intro hc
        rw [hc, hfresh] at hnd
        cases hnd
      have h1 := hsid u.span
      rw [if_neg hune, hnd] at h1
      obtain ⟨nd2, hnd2, hnds2⟩ := Option.map_eq_some'.mp h1
      exact ⟨nd2, hnd2, by rw [hnds2, hnds]⟩
  · -- keys_sub
    intro k hk
    rcases (hkeys k).mp hk with hk | hk
    · simp [hk]
    · have := hInv.keys_sub k hk
      simp only [List.map_cons, List.mem_cons]
      exact Or.inr this
  · -- root_mem
    simp only [List.map_cons, List.mem_cons]
    exact Or.inr hInv.root_mem
  · -- root_real
    intro u hu hu0
    rcases List.mem_cons.mp hu with hu | hu
    · subst hu
      exact absurd hu0 hp0
    · exact hInv.root_real u hu hu0
  · -- sub_iff
    intro x k
    rw [hch k, hap x, hkeys x]
    by_cases hx : x = s.span
    · subst hx
      have hrhs2 : (if pfShift sm s s.span = s.span ∨
          (alookup sm (pfShift sm s s.span)).isSome = true
          then pfShift sm s s.span else r) = r := by
        rw [hPx]
        rcases hpr with hpr | hpr
        · rw [if_pos (Or.inr (by rw [hpr]; exact hInv.isSome_root))]
          exact hpr
        · rw [if_neg]
          push_neg
          refine ⟨hps, ?_⟩
          rw [hpr]
          simp
      rw [hrhs2]
      by_cases hk1 : k = s.span
      · rw [if_pos hk1]
        constructor
        · intro hmem
          rw [List.mem_filter] at hmem
          rw [hPx] at hmem
          exact absurd (of_decide_eq_true hmem.2) hps
        · intro hrhs
          exact absurd (hrhs.2.2.trans hk1) hrne
      · rw [if_neg hk1]
        by_cases hk2 : k = r
        · rw [if_pos hk2]
          constructor
          · intro _
            exact ⟨Or.inl rfl, hsr, hk2.symm⟩
          · intro _
            rw [List.mem_filter]
            refine ⟨by simp, ?_⟩
            rw [hPx]
            simpa using hps
        · rw [if_neg hk2]
          constructor
          · intro hmem
            exact absurd hmem (hInv.not_mem_of_absent hfresh k)
          · intro hrhs
            exact absurd hrhs.2.2.symm hk2
    · -- x ≠ s.span
      rw [hPother x hx]
      by_cases hxk : (alookup sm x).isSome = true
      · by_cases hxr : x = r
        · constructor
          · intro hmem
            exfalso
            split_ifs at hmem with h1 h2
            · rw [List.mem_filter, List.mem_append] at hmem
              rcases hmem.1 with hm | hm
              · rw [hxr] at hm
                exact hInv.root_not_mem r hm
              · simp at hm
                rw [hxr] at hm
                exact hrne hm
            · rw [List.mem_filter, List.mem_append] at hmem
              rcases hmem.1 with hm | hm
              · rw [hxr] at hm
                exact hInv.root_not_mem r hm
              · simp at hm
                rw [hxr] at hm
                exact hrne hm
            · rw [hxr] at hmem
              exact hInv.root_not_mem k hmem
          · intro hrhs
            exact absurd hxr hrhs.2.1
        · -- x ∈ keys sm, x ≠ r, x ≠ s.span
          have hxin : x ∈ childrenOf sm (attachPoint sm r x) :=
            (hInv.sub_iff x _).mpr ⟨hxk, hxr, rfl⟩
          have hxonly : ∀ j, x ∈ childrenOf sm j ↔ attachPoint sm r x = j := by
            intro j
            rw [hInv.sub_iff x j]
            constructor
            · exact fun hh => hh.2.2
            · exact fun hh => ⟨hxk, hxr, hh⟩
          by_cases hpx : parentOf sm x = s.span
          · -- parent of x is the new span: x was an orphan under the root
            have hL0 : attachPoint sm r x = r := by
              unfold attachPoint
              rw [hpx, hfresh]
              rfl
            have hxmemr : x ∈ childrenOf sm r := by
              rw [← hL0]
              exact hxin
            have hattach : (if parentOf sm x = s.span ∨
                (alookup sm (parentOf sm x)).isSome = true
                then parentOf sm x else r) = s.span := by
              rw [if_pos (Or.inl hpx)]
              exact hpx
            rw [hattach]
            by_cases hk1 : k = s.span
            · rw [if_pos hk1]
              constructor
              · intro _
                exact ⟨Or.inr hxk, hxr, hk1.symm⟩
              · intro _
                rw [List.mem_filter, List.mem_append]
                refine ⟨Or.inl hxmemr, ?_⟩
                rw [hPother x hx, hpx]
                simp
            · rw [if_neg hk1]
              by_cases hk2 : k = r
              · rw [if_pos hk2]
                constructor
                · intro hmem
                  rw [List.mem_filter] at hmem
                  have := of_decide_eq_true hmem.2
                  rw [hPother x hx] at this
                  exact absurd hpx this
                · intro hrhs
                  exact absurd hrhs.2.2.symm hk1
              · rw [if_neg hk2]
                constructor
                · intro hmem
                  have := (hxonly k).mp hmem
                  rw [hL0] at this
                  exact absurd this.symm hk2
                · intro hrhs
                  exact absurd hrhs.2.2.symm hk1
          · -- parent of x is not the new span
            by_cases hpk : (alookup sm (parentOf sm x)).isSome = true
            · -- genuine: x sits under its registered parent
              have hL0 : attachPoint sm r x = parentOf sm x := by
                unfold attachPoint
                rw [if_pos hpk]
              have hattach : (if parentOf sm x = s.span ∨
                  (alookup sm (parentOf sm x)).isSome = true
                  then parentOf sm x else r) = parentOf sm x :=
                if_pos (Or.inr hpk)
              rw [hattach]
              by_cases hqr : parentOf sm x = r
              · have hxmemr : x ∈ childrenOf sm r := by
                  rw [← hqr, ← hL0]
                  exact hxin
                by_cases hk1 : k = s.span
                · rw [if_pos hk1]
                  constructor
                  · intro hmem
                    rw [List.mem_filter] at hmem
                    have := of_decide_eq_true hmem.2
                    rw [hPother x hx] at this
                    exact absurd this hpx
                  · intro hrhs
                    rw [hqr] at hrhs
                    exact absurd (hrhs.2.2.trans hk1) hrne
                · rw [if_neg hk1]
                  by_cases hk2 : k = r
                  · rw [if_pos hk2]
                    constructor
                    · intro _
                      exact ⟨Or.inr hxk, hxr, by rw [hqr, hk2]⟩
                    · intro _
                      rw [List.mem_filter, List.mem_append]
                      refine ⟨Or.inl hxmemr, ?_⟩
                      rw [hPother x hx]
                      simpa using hpx
                  · rw [if_neg hk2]
                    constructor
                    · intro hmem
                      have := (hxonly k).mp hmem
                      rw [hL0, hqr] at this
                      exact absurd this.symm hk2
                    · intro hrhs
                      rw [hqr] at hrhs
                      exact absurd hrhs.2.2.symm hk2
              · -- parent is an ordinary registered node, not the root
                have hqs : parentOf sm x ≠ s.span := hpx
                by_cases hk1 : k = s.span
                · rw [if_pos hk1]
                  constructor
                  · intro hmem
                    rw [List.mem_filter] at hmem
                    have := of_decide_eq_true hmem.2
                    rw [hPother x hx] at this
                    exact absurd this hpx
                  · intro hrhs
                    exact absurd (hrhs.2.2.trans hk1) hqs
                · rw [if_neg hk1]
                  by_cases hk2 : k = r
                  · rw [if_pos hk2]
                    constructor
                    · intro hmem
                      rw [List.mem_filter, List.mem_append] at hmem
                      rcases hmem.1 with hm | hm
                      · have := (hxonly r).mp hm
                        rw [hL0] at this
                        exact absurd this hqr
                      · simp at hm
                        exact absurd hm hx
                    · intro hrhs
                      exact absurd (hrhs.2.2.trans hk2) hqr
                  · rw [if_neg hk2]
                    rw [hxonly k, hL0]
                    constructor
                    · intro hh
                      exact ⟨Or.inr hxk, hxr, hh⟩
                    · exact fun hh => hh.2.2
            · -- orphan whose parent is neither registered nor the new span
              have hL0 : attachPoint sm r x = r := by
                unfold attachPoint
                rw [if_neg hpk]
              have hxmemr : x ∈ childrenOf sm r := by
                rw [← hL0]
                exact hxin
              have hattach : (if parentOf sm x = s.span ∨
                  (alookup sm (parentOf sm x)).isSome = true
                  then parentOf sm x else r) = r := by
                rw [if_neg]
                push_neg
                exact ⟨hpx, hpk⟩
              rw [hattach]
              by_cases hk1 : k = s.span
              · rw [if_pos hk1]
                constructor
                · intro hmem
                  rw [List.mem_filter] at hmem
                  have := of_decide_eq_true hmem.2
                  rw [hPother x hx] at this
                  exact absurd this hpx
                · intro hrhs
                  exact absurd (hrhs.2.2.trans hk1) hrne
              · rw [if_neg hk1]
                by_cases hk2 : k = r
                · rw [if_pos hk2]
                  constructor
                  · intro _
                    exact ⟨Or.inr hxk, hxr, hk2.symm⟩
                  · intro _
                    rw [List.mem_filter, List.mem_append]
                    refine ⟨Or.inl hxmemr, ?_⟩
                    rw [hPother x hx]
                    simpa using hpx
                · rw [if_neg hk2]
                  constructor
                  · intro hmem
                    have := (hxonly k).mp hmem
                    rw [hL0] at this
                    exact absurd this.symm hk2
                  · intro hrhs
                    exact absurd hrhs.2.2.symm hk2
      · -- x is not registered at all
        have hxnone : alookup sm x = none := by
          cases hxa : alookup sm x
          · rfl
          · rw [hxa] at hxk
            exact absurd rfl hxk
        constructor
        · intro hmem
          split_ifs at hmem with h1 h2
          · rw [List.mem_filter, List.mem_append] at hmem
            rcases hmem.1 with hm | hm
            · exact absurd hm (hInv.not_mem_of_absent hxnone r)
            · simp at hm
              exact absurd hm hx
          · rw [List.mem_filter, List.mem_append] at hmem
            rcases hmem.1 with hm | hm
            · exact absurd hm (hInv.not_mem_of_absent hxnone r)
            · simp at hm
              exact absurd hm hx
          · exact absurd hmem (hInv.not_mem_of_absent hxnone k)
        · intro hrhs
          rcases hrhs.1 with hc | hc
          · exact absurd hc hx
          · exact absurd hc hxk
  · -- sub_nodup
    intro k
    rw [hch k]
    have hbase : (childrenOf sm r ++ [s.span]).Nodup := by
      rw [List.nodup_append]
      refine ⟨hInv.sub_nodup r, List.nodup_singleton _, ?_⟩
      intro a ha hb
      simp at hb
      subst hb
      exact hInv.not_mem_of_absent hfresh r ha
    split_ifs with h1 h2
    · exact hbase.filter _
    · exact hbase.filter _
    · exact hInv.sub_nodup k

/-- Core step, shape two: a fresh non-root span whose stored parent is a
registered node other than the root.  `insert` appends it to that
parent's child list; the self-reattachment over the root's children moves
the orphans waiting for the new span under the new node. -/
theorem invSM_step_parentattach
    (S : List SpanID) (sm : SpanMap) (r : ID) (hInv : InvSM S sm r)
    (s : SpanID) (sm' : SpanMap)
    (hfresh : alookup sm s.span = none)
    (hp0 : s.parent ≠ 0)
    (hps : s.parent ≠ s.span)
    (hq : (alookup sm s.parent).isSome = true)
    (hqr : s.parent ≠ r)
    (hkeys : ∀ k, (alookup sm' k).isSome = true ↔
      (k = s.span ∨ (alookup sm k).isSome = true))
    (hsid : ∀ k, (alookup sm' k).map TraceNode.sid =
      if k = s.span then some s else (alookup sm k).map TraceNode.sid)
    (hch : ∀ k, childrenOf sm' k =
      if k = s.span then
        (childrenOf sm r).filter fun c => pfShift sm s c = s.span
      else if k = r then
        (childrenOf sm r).filter fun c => ¬ pfShift sm s c = s.span
      else if k = s.parent then childrenOf sm s.parent ++ [s.span]
      else childrenOf sm k) :
    InvSM (s :: S) sm' r := by
  have hkeyne : ∀ y, (alookup sm y).isSome = true → y ≠ s.span := by
    intro y hy hc
    rw [hc, hfresh] at hy
    cases hy
  have hrne : r ≠ s.span := hkeyne r hInv.isSome_root
  have hsr : s.span ≠ r := fun hc => hrne hc.symm
  have hqs : s.parent ≠ s.span := hps
  have hpf : ∀ x, parentOf sm' x = pfShift sm s x := by
    intro x
    rw [parentOf_map_sid sm' x, hsid x]
    unfold pfShift
    by_cases hx : x = s.span
    · simp [hx]
    · rw [if_neg hx, if_neg hx, ← parentOf_map_sid]
  have hap : ∀ x, attachPoint sm' r x =
      if pfShift sm s x = s.span ∨ (alookup sm (pfShift sm s x)).isSome = true
      then pfShift sm s x else r := by
    intro x
    unfold attachPoint
    rw [hpf x]
    have hiff := hkeys (pfShift sm s x)
    by_cases hc : (alookup sm' (pfShift sm s x)).isSome = true
    · rw [if_pos hc, if_pos (hiff.mp hc)]
    · rw [if_neg hc, if_neg (fun hcc => hc (hiff.mpr hcc))]
  have hPx : pfShift sm s s.span = s.parent := by
    unfold pfShift
    rw [if_pos rfl]
  have hPother : ∀ x, x ≠ s.span → pfShift sm s x = parentOf sm x := by
    intro x hx
    unfold pfShift
    rw [if_neg hx]
  refine ⟨?_, ?_, ?_, ?_, ?_, ?_⟩
  · intro u hu
    rcases List.mem_cons.mp hu with hu | hu
    · subst hu
      have h1 := hsid u.span
      rw [if_pos rfl] at h1
      obtain ⟨nd, hnd, hnds⟩ := Option.map_eq_some'.mp h1
      exact ⟨nd, hnd, hnds⟩
    · obtain ⟨nd, hnd, hnds⟩ := hInv.node_sid u hu
      have hune : u.span ≠ s.span := by
        intro hc
        rw [hc, hfresh] at hnd
        cases hnd
      have h1 := hsid u.span
      rw [if_neg hune, hnd] at h1
      obtain ⟨nd2, hnd2, hnds2⟩ := Option.map_eq_some'.mp h1
      exact ⟨nd2, hnd2, by rw [hnds2, hnds]⟩
  · intro k hk
    rcases (hkeys k).mp hk with hk | hk
    · simp [hk]
    · have := hInv.keys_sub k hk
      simp only [List.map_cons, List.mem_cons]
      exact Or.inr this
  · simp only [List.map_cons, List.mem_cons]
    exact Or.inr hInv.root_mem
  · intro u hu hu0
    rcases List.mem_cons.mp hu with hu | hu
    · subst hu
      exact absurd hu0 hp0
    · exact hInv.root_real u hu hu0
  · intro x k
    rw [hch k, hap x, hkeys x]
    by_cases hx : x = s.span
    · subst hx
      have hattach : (if pfShift sm s s.span = s.span ∨
          (alookup sm (pfShift sm s s.span)).isSome = true
          then pfShift sm s s.span else r) = s.parent := by
        rw [hPx, if_pos (Or.inr hq)]
      rw [hattach]
      by_cases hk1 : k = s.span
      · rw [if_pos hk1]
        constructor
        · intro hmem
          rw [List.mem_filter] at hmem
          exact absurd hmem.1 (hInv.not_mem_of_absent hfresh r)
        · intro hrhs
          exact absurd (hrhs.2.2.trans hk1) hqs
      · rw [if_neg hk1]
        by_cases hk2 : k = r
        · rw [if_pos hk2]
          constructor
          · intro hmem
            rw [List.mem_filter] at hmem
            exact absurd hmem.1 (hInv.not_mem_of_absent hfresh r)
          · intro hrhs
            exact absurd (hrhs.2.2.trans hk2) hqr
        · rw [if_neg hk2]
          by_cases hk3 : k = s.parent
          · rw [if_pos hk3]
            constructor
            · intro _
              exact ⟨Or.inl rfl, hsr, hk3.symm⟩
            · intro _
              simp
          · rw [if_neg hk3]
            constructor
            · intro hmem
              exact absurd hmem (hInv.not_mem_of_absent hfresh k)
            · intro hrhs
              exact absurd hrhs.2.2.symm hk3
    · rw [hPother x hx]
      by_cases hxk : (alookup sm x).isSome = true
      · by_cases hxr : x = r
        · constructor
          · intro hmem
            exfalso
            split_ifs at hmem with h1 h2 h3
            · rw [List.mem_filter] at hmem
              rw [hxr] at hmem
              exact hInv.root_not_mem r hmem.1
            · rw [List.mem_filter] at hmem
              rw [hxr] at hmem
              exact hInv.root_not_mem r hmem.1
            · rw [List.mem_append] at hmem
              rcases hmem with hm | hm
              · rw [hxr] at hm
                exact hInv.root_not_mem s.parent hm
              · simp at hm
                exact hx hm
            · rw [hxr] at hmem
              exact hInv.root_not_mem k hmem
          · intro hrhs
            exact absurd hxr hrhs.2.1
        · have hxin : x ∈ childrenOf sm (attachPoint sm r x) :=
            (hInv.sub_iff x _).mpr ⟨hxk, hxr, rfl⟩
          have hxonly : ∀ j, x ∈ childrenOf sm j ↔ attachPoint sm r x = j := by
            intro j
            rw [hInv.sub_iff x j]
            constructor
            · exact fun hh => hh.2.2
            · exact fun hh => ⟨hxk, hxr, hh⟩
          by_cases hpx : parentOf sm x = s.span
          · have hL0 : attachPoint sm r x = r := by
              unfold attachPoint
              rw [hpx, hfresh]
              rfl
            have hxmemr : x ∈ childrenOf sm r := by
              rw [← hL0]
              exact hxin
            have hattach : (if parentOf sm x = s.span ∨
                (alookup sm (parentOf sm x)).isSome = true
                then parentOf sm x else r) = s.span := by
              rw [if_pos (Or.inl hpx)]
              exact hpx
            rw [hattach]
            by_cases hk1 : k = s.span
            · rw [if_pos hk1]
              constructor
              · intro _
                exact ⟨Or.inr hxk, hxr, hk1.symm⟩
              · intro _
                rw [List.mem_filter]
                refine ⟨hxmemr, ?_⟩
                rw [hPother x hx]
                simpa using hpx
            · rw [if_neg hk1]
              by_cases hk2 : k = r
              · rw [if_pos hk2]
                constructor
                · intro hmem
                  rw [List.mem_filter] at hmem
                  have := of_decide_eq_true hmem.2
                  rw [hPother x hx] at this
                  exact absurd hpx this
                · intro hrhs
                  exact absurd hrhs.2.2.symm hk1
              · rw [if_neg hk2]
                by_cases hk3 : k = s.parent
                · rw [if_pos hk3]
                  constructor
                  · intro hmem
                    rw [List.mem_append] at hmem
                    rcases hmem with hm | hm
                    · have := (hxonly s.parent).mp hm
                      rw [hL0] at this
                      exact absurd this.symm hqr
                    · simp at hm
                      exact absurd hm hx
                  · intro hrhs
                    exact absurd (hrhs.2.2.trans hk3).symm hqs
                · rw [if_neg hk3]
                  constructor
                  · intro hmem
                    have := (hxonly k).mp hmem
                    rw [hL0] at this
                    exact absurd this.symm hk2
                  · intro hrhs
                    exact absurd hrhs.2.2.symm hk1
          · by_cases hpk : (alookup sm (parentOf sm x)).isSome = true
            · have hL0 : attachPoint sm r x = parentOf sm x := by
                unfold attachPoint
                rw [if_pos hpk]
              have hattach : (if parentOf sm x = s.span ∨
                  (alookup sm (parentOf sm x)).isSome = true
                  then parentOf sm x else r) = parentOf sm x :=
                if_pos (Or.inr hpk)
              rw [hattach]
              by_cases hqr0 : parentOf sm x = r
              · have hxmemr : x ∈ childrenOf sm r := by
                  rw [← hqr0, ← hL0]
                  exact hxin
                by_cases hk1 : k = s.span
                · rw [if_pos hk1]
                  constructor
                  · intro hmem
                    rw [List.mem_filter] at hmem
                    have := of_decide_eq_true hmem.2
                    rw [hPother x hx] at this
                    exact absurd this hpx
                  · intro hrhs
                    rw [hqr0] at hrhs
                    exact absurd (hrhs.2.2.trans hk1) hrne
                · rw [if_neg hk1]
                  by_cases hk2 : k = r
                  · rw [if_pos hk2]
                    constructor
                    · intro _
                      exact ⟨Or.inr hxk, hxr, by rw [hqr0, hk2]⟩
                    · intro _
                      rw [List.mem_filter]
                      refine ⟨hxmemr, ?_⟩
                      rw [hPother x hx]
                      simpa using hpx
                  · rw [if_neg hk2]
                    by_cases hk3 : k = s.parent
                    · rw [if_pos hk3]
                      constructor
                      · intro hmem
                        rw [List.mem_append] at hmem
                        rcases hmem with hm | hm
                        · have := (hxonly s.parent).mp hm
                          rw [hL0, hqr0] at this
                          exact absurd this.symm hqr
                        · simp at hm
                          exact absurd hm hx
                      · intro hrhs
                        rw [hqr0] at hrhs
                        exact absurd (hrhs.2.2.trans hk3) (fun hc => hqr hc.symm)
                    · rw [if_neg hk3]
                      constructor
                      · intro hmem
                        have := (hxonly k).mp hmem
                        rw [hL0, hqr0] at this
                        exact absurd this.symm hk2
                      · intro hrhs
                        rw [hqr0] at hrhs
                        exact absurd hrhs.2.2.symm hk2
              · by_cases hk1 : k = s.span
                · rw [if_pos hk1]
                  constructor
                  · intro hmem
                    rw [List.mem_filter] at hmem
                    have := of_decide_eq_true hmem.2
                    rw [hPother x hx] at this
                    exact absurd this hpx
                  · intro hrhs
                    exact absurd (hrhs.2.2.trans hk1) hpx
                · rw [if_neg hk1]
                  by_cases hk2 : k = r
                  · rw [if_pos hk2]
                    constructor
                    · intro hmem
                      rw [List.mem_filter] at hmem
                      have := (hxonly r).mp hmem.1
                      rw [hL0] at this
                      exact absurd this hqr0
                    · intro hrhs
                      exact absurd (hrhs.2.2.trans hk2) hqr0
                  · rw [if_neg hk2]
                    by_cases hk3 : k = s.parent
                    · rw [if_pos hk3]
                      constructor
                      · intro hmem
                        rw [List.mem_append] at hmem
                        rcases hmem with hm | hm
                        · have := (hxonly s.parent).mp hm
                          rw [hL0] at this
                          exact ⟨Or.inr hxk, hxr, by rw [this, hk3]⟩
                        · simp at hm
                          exact absurd hm hx
                      · intro hrhs
                        rw [List.mem_append]
                        exact Or.inl ((hxonly s.parent).mpr
                          (hL0.trans (hrhs.2.2.trans hk3)))
                    · rw [if_neg hk3]
                      rw [hxonly k, hL0]
                      constructor
                      · intro hh
                        exact ⟨Or.inr hxk, hxr, hh⟩
                      · exact fun hh => hh.2.2
            · have hL0 : attachPoint sm r x = r := by
                unfold attachPoint
                rw [if_neg hpk]
              have hxmemr : x ∈ childrenOf sm r := by
                rw [← hL0]
                exact hxin
              have hattach : (if parentOf sm x = s.span ∨
                  (alookup sm (parentOf sm x)).isSome = true
                  then parentOf sm x else r) = r := by
                rw [if_neg]
                push_neg
                exact ⟨hpx, hpk⟩
              rw [hattach]
              by_cases hk1 : k = s.span
              · rw [if_pos hk1]
                constructor
                · intro hmem
                  rw [List.mem_filter] at hmem
                  have := of_decide_eq_true hmem.2
                  rw [hPother x hx] at this
                  exact absurd this hpx
                · intro hrhs
                  exact absurd (hrhs.2.2.trans hk1) hrne
              · rw [if_neg hk1]
                by_cases hk2 : k = r
                · rw [if_pos hk2]
                  constructor
                  · intro _
                    exact ⟨Or.inr hxk, hxr, hk2.symm⟩
                  · intro _
                    rw [List.mem_filter]
                    refine ⟨hxmemr, ?_⟩
                    rw [hPother x hx]
                    simpa using hpx
                · rw [if_neg hk2]
                  by_cases hk3 : k = s.parent
                  · rw [if_pos hk3]
                    constructor
                    · intro hmem
                      rw [List.mem_append] at hmem
                      rcases hmem with hm | hm
                      · have := (hxonly s.parent).mp hm
                        rw [hL0] at this
                        exact absurd this.symm hqr
                      · simp at hm
                        exact absurd hm hx
                    · intro hrhs
                      exact absurd (hrhs.2.2.trans hk3) (fun hc => hqr hc.symm)
                  · rw [if_neg hk3]
                    constructor
                    · intro hmem
                      have := (hxonly k).mp hmem
                      rw [hL0] at this
                      exact absurd this.symm hk2
                    · intro hrhs
                      exact absurd hrhs.2.2.symm hk2
      · have hxnone : alookup sm x = none := by
          cases hxa : alookup sm x
          · rfl
          · rw [hxa] at hxk
            exact absurd rfl hxk
        constructor
        · intro hmem
          split_ifs at hmem with h1 h2 h3
          · rw [List.mem_filter] at hmem
            exact absurd hmem.1 (hInv.not_mem_of_absent hxnone r)
          · rw [List.mem_filter] at hmem
            exact absurd hmem.1 (hInv.not_mem_of_absent hxnone r)
          · rw [List.mem_append] at hmem
            rcases hmem with hm | hm
            · exact absurd hm (hInv.not_mem_of_absent hxnone s.parent)
            · simp at hm
              exact absurd hm hx
          · exact absurd hmem (hInv.not_mem_of_absent hxnone k)
        · intro hrhs
          rcases hrhs.1 with hc | hc
          · exact absurd hc hx
          · exact absurd hc hxk
  · intro k
    rw [hch k]
    split_ifs with h1 h2 h3
    · exact (hInv.sub_nodup r).filter _
    · exact (hInv.sub_nodup r).filter _
    · rw [List.nodup_append]
      refine ⟨hInv.sub_nodup s.parent, List.nodup_singleton _, ?_⟩
      intro a ha hb
      simp at hb
      subst hb
      exact hInv.not_mem_of_absent hfresh s.parent ha
    · exact hInv.sub_nodup k

/-- Core step, shape three: promotion of a fresh span to root where the
old root's stored parent is the new span itself or is unregistered, so
the demoted old root is re-inserted under the new root.  The new root
gathers the orphans waiting for it (the first reattachment), then the old
root, then the old root's temporary children; the old root keeps exactly
its genuine children. -/
theorem invSM_step_promoRoot
    (S : List SpanID) (sm : SpanMap) (r : ID) (hInv : InvSM S sm r)
    (s : SpanID) (sm' : SpanMap)
    (hfresh : alookup sm s.span = none)
    (hps : s.parent ≠ s.span)
    (hrr : ∀ u ∈ S, u.parent = 0 → s.span = u.span)
    (hprc : parentOf sm r = s.span ∨ alookup sm (parentOf sm r) = none)
    (hkeys : ∀ k, (alookup sm' k).isSome = true ↔
      (k = s.span ∨ (alookup sm k).isSome = true))
    (hsid : ∀ k, (alookup sm' k).map TraceNode.sid =
      if k = s.span then some s else (alookup sm k).map TraceNode.sid)
    (hch : ∀ k, childrenOf sm' k =
      if k = s.span then
        (childrenOf sm r).filter (fun c => pfShift sm s c = s.span) ++ [r] ++
          ((childrenOf sm r).filter fun c => ¬ pfShift sm s c = s.span).filter
            (fun c => ¬ pfShift sm s c = r)
      else if k = r then
        ((childrenOf sm r).filter fun c => ¬ pfShift sm s c = s.span).filter
          (fun c => pfShift sm s c = r)
      else childrenOf sm k) :
    InvSM (s :: S) sm' s.span := by
  have hkeyne : ∀ y, (alookup sm y).isSome = true → y ≠ s.span := by
    intro y hy hc
    rw [hc, hfresh] at hy
    cases hy
  have hrne : r ≠ s.span := hkeyne r hInv.isSome_root
  have hpf : ∀ x, parentOf sm' x = pfShift sm s x := by
    intro x
    rw [parentOf_map_sid sm' x, hsid x]
    unfold pfShift
    by_cases hx : x = s.span
    · simp [hx]
    · rw [if_neg hx, if_neg hx, ← parentOf_map_sid]
  have hap : ∀ x, attachPoint sm' s.span x =
      if pfShift sm s x = s.span ∨ (alookup sm (pfShift sm s x)).isSome = true
      then pfShift sm s x else s.span := by
    intro x
    unfold attachPoint
    rw [hpf x]
    have hiff := hkeys (pfShift sm s x)
    by_cases hc : (alookup sm' (pfShift sm s x)).isSome = true
    · rw [if_pos hc, if_pos (hiff.mp hc)]
    · rw [if_neg hc, if_neg (fun hcc => hc (hiff.mpr hcc))]
  have hPx : pfShift sm s s.span = s.parent := by
    unfold pfShift
    rw [if_pos rfl]
  have hPother : ∀ x, x ≠ s.span → pfShift sm s x = parentOf sm x := by
    intro x hx
    unfold pfShift
    rw [if_neg hx]
  refine ⟨?_, ?_, ?_, ?_, ?_, ?_⟩
  · intro u hu
    rcases List.mem_cons.mp hu with hu | hu
    · subst hu
      have h1 := hsid u.span
      rw [if_pos rfl] at h1
      obtain ⟨nd, hnd, hnds⟩ := Option.map_eq_some'.mp h1
      exact ⟨nd, hnd, hnds⟩
    · obtain ⟨nd, hnd, hnds⟩ := hInv.node_sid u hu
      have hune : u.span ≠ s.span := by
        intro hc
        rw [hc, hfresh] at hnd
        cases hnd
      have h1 := hsid u.span
      rw [if_neg hune, hnd] at h1
      obtain ⟨nd2, hnd2, hnds2⟩ := Option.map_eq_some'.mp h1
      exact ⟨nd2, hnd2, by rw [hnds2, hnds]⟩
  · intro k hk
    rcases (hkeys k).mp hk with hk | hk
    · simp [hk]
    · have := hInv.keys_sub k hk
      simp only [List.map_cons, List.mem_cons]
      exact Or.inr this
  · simp
  · intro u hu hu0
    rcases List.mem_cons.mp hu with hu | hu
    · subst hu
      rfl
    · exact hrr u hu hu0
  · intro x k
    rw [hch k, hap x, hkeys x]
    by_cases hx : x = s.span
    · subst hx
      constructor
      · intro hmem
        exfalso
        split_ifs at hmem with h1 h2
        · rw [List.mem_append, List.mem_append] at hmem
          rcases hmem with (hm | hm) | hm
          · rw [List.mem_filter] at hm
            exact hInv.not_mem_of_absent hfresh r hm.1
          · simp at hm
            exact hrne hm.symm
          · rw [List.mem_filter, List.mem_filter] at hm
            exact hInv.not_mem_of_absent hfresh r hm.1.1
        · rw [List.mem_filter, List.mem_filter] at hmem
          exact hInv.not_mem_of_absent hfresh r hmem.1.1
        · exact hInv.not_mem_of_absent hfresh k hmem
      · intro hrhs
        exact absurd rfl hrhs.2.1
    · rw [hPother x hx]
      by_cases hxk : (alookup sm x).isSome = true
      · by_cases hxr : x = r
        · -- the demoted old root
          have hattach : (if parentOf sm x = s.span ∨
              (alookup sm (parentOf sm x)).isSome = true
              then parentOf sm x else s.span) = s.span := by
            rw [hxr]
            rcases hprc with hc | hc
            · rw [if_pos (Or.inl hc)]
              exact hc
            · by_cases hcs : parentOf sm r = s.span
              · rw [if_pos (Or.inl hcs)]
                exact hcs
              · rw [if_neg]
                push_neg
                refine ⟨hcs, ?_⟩
                rw [hc]
                simp
          rw [hattach]
          by_cases hk1 : k = s.span
          · rw [if_pos hk1]
            constructor
            · intro _
              exact ⟨Or.inr hxk, fun hc => hx hc, hk1.symm⟩
            · intro _
              rw [List.mem_append]
              left
              rw [List.mem_append]
              right
              simp [hxr]
          · rw [if_neg hk1]
            by_cases hk2 : k = r
            · rw [if_pos hk2]
              constructor
              · intro hmem
                rw [List.mem_filter, List.mem_filter] at hmem
                rw [hxr] at hmem
                exact absurd hmem.1.1 (hInv.root_not_mem r)
              · intro hrhs
                exact absurd hrhs.2.2.symm hk1
            · rw [if_neg hk2]
              constructor
              · intro hmem
                rw [hxr] at hmem
                exact absurd hmem (hInv.root_not_mem k)
              · intro hrhs
                exact absurd hrhs.2.2.symm hk1
        · -- an ordinary registered node
          have hxin : x ∈ childrenOf sm (attachPoint sm r x) :=
            (hInv.sub_iff x _).mpr ⟨hxk, hxr, rfl⟩
          have hxonly : ∀ j, x ∈ childrenOf sm j ↔ attachPoint sm r x = j := by
            intro j
            rw [hInv.sub_iff x j]
            constructor
            · exact fun hh => hh.2.2
            · exact fun hh => ⟨hxk, hxr, hh⟩
          by_cases hpx : parentOf sm x = s.span
          · have hL0 : attachPoint sm r x = r := by
              unfold attachPoint
              rw [hpx, hfresh]
              rfl
            have hxmemr : x ∈ childrenOf sm r := by
              rw [← hL0]
              exact hxin
            have hattach : (if parentOf sm x = s.span ∨
                (alookup sm (parentOf sm x)).isSome = true
                then parentOf sm x else s.span) = s.span := by
              rw [if_pos (Or.inl hpx)]
              exact hpx
            rw [hattach]
            by_cases hk1 : k = s.span
            · rw [if_pos hk1]
              constructor
              · intro _
                exact ⟨Or.inr hxk, hx, hk1.symm⟩
              · intro _
                rw [List.mem_append]
                left
                rw [List.mem_append]
                left
                rw [List.mem_filter]
                refine ⟨hxmemr, ?_⟩
                rw [hPother x hx]
                simpa using hpx
            · rw [if_neg hk1]
              by_cases hk2 : k = r
              · rw [if_pos hk2]
                constructor
                · intro hmem
                  rw [List.mem_filter, List.mem_filter] at hmem
                  have := of_decide_eq_true hmem.1.2
                  rw [hPother x hx] at this
                  exact absurd hpx this
                · intro hrhs
                  exact absurd hrhs.2.2.symm hk1
              · rw [if_neg hk2]
                constructor
                · intro hmem
                  have := (hxonly k).mp hmem
                  rw [hL0] at this
                  exact absurd this.symm hk2
                · intro hrhs
                  exact absurd hrhs.2.2.symm hk1
          · by_cases hpk : (alookup sm (parentOf sm x)).isSome = true
            · have hL0 : attachPoint sm r x = parentOf sm x := by
                unfold attachPoint
                rw [if_pos hpk]
              have hattach : (if parentOf sm x = s.span ∨
                  (alookup sm (parentOf sm x)).isSome = true
                  then parentOf sm x else s.span) = parentOf sm x :=
                if_pos (Or.inr hpk)
              rw [hattach]
              by_cases hqr0 : parentOf sm x = r
              · have hxmemr : x ∈ childrenOf sm r := by
                  rw [← hqr0, ← hL0]
                  exact hxin
                by_cases hk1 : k = s.span
                · rw [if_pos hk1]
                  constructor
                  · intro hmem
                    rw [List.mem_append, List.mem_append] at hmem
                    rcases hmem with (hm | hm) | hm
                    · rw [List.mem_filter] at hm
                      have := of_decide_eq_true hm.2
                      rw [hPother x hx] at this
                      exact absurd this hpx
                    · simp at hm
                      exact absurd hm hxr
                    · rw [List.mem_filter] at hm
                      have := of_decide_eq_true hm.2
                      rw [hPother x hx] at this
                      exact absurd hqr0 this
                  · intro hrhs
                    rw [hqr0] at hrhs
                    exact absurd (hrhs.2.2.trans hk1) hrne
                · rw [if_neg hk1]
                  by_cases hk2 : k = r
                  · rw [if_pos hk2]
                    constructor
                    · intro _
                      exact ⟨Or.inr hxk, hx, by rw [hqr0, hk2]⟩
                    · intro _
                      rw [List.mem_filter, List.mem_filter]
                      refine ⟨⟨hxmemr, ?_⟩, ?_⟩
                      · rw [hPother x hx]
                        simpa using hpx
                      · rw [hPother x hx]
                        simpa using hqr0
                  · rw [if_neg hk2]
                    constructor
                    · intro hmem
                      have := (hxonly k).mp hmem
                      rw [hL0, hqr0] at this
                      exact absurd this.symm hk2
                    · intro hrhs
                      rw [hqr0] at hrhs
                      exact absurd hrhs.2.2.symm hk2
              · by_cases hk1 : k = s.span
                · rw [if_pos hk1]
                  constructor
                  · intro hmem
                    rw [List.mem_append, List.mem_append] at hmem
                    rcases hmem with (hm | hm) | hm
                    · rw [List.mem_filter] at hm
                      have := of_decide_eq_true hm.2
                      rw [hPother x hx] at this
                      exact absurd this hpx
                    · simp at hm
                      exact absurd hm hxr
                    · rw [List.mem_filter, List.mem_filter] at hm
                      have := (hxonly r).mp hm.1.1
                      rw [hL0] at this
                      exact absurd this hqr0
                  · intro hrhs
                    exact absurd (hrhs.2.2.trans hk1) (hkeyne _ hpk)
                · rw [if_neg hk1]
                  by_cases hk2 : k = r
                  · rw [if_pos hk2]
                    constructor
                    · intro hmem
                      rw [List.mem_filter, List.mem_filter] at hmem
                      have := (hxonly r).mp hmem.1.1
                      rw [hL0] at this
                      exact absurd this hqr0
                    · intro hrhs
                      exact absurd (hrhs.2.2.trans hk2) hqr0
                  · rw [if_neg hk2]
                    rw [hxonly k, hL0]
                    constructor
                    · intro hh
                      exact ⟨Or.inr hxk, hx, hh⟩
                    · exact fun hh => hh.2.2
            · have hL0 : attachPoint sm r x = r := by
                unfold attachPoint
                rw [if_neg hpk]
              have hxmemr : x ∈ childrenOf sm r := by
                rw [← hL0]
                exact hxin
              have hpxr : parentOf sm x ≠ r := by
                intro hc
                rw [hc] at hpk
                exact hpk hInv.isSome_root
              have hattach : (if parentOf sm x = s.span ∨
                  (alookup sm (parentOf sm x)).isSome = true
                  then parentOf sm x else s.span) = s.span := by
                rw [if_neg]
                push_neg
                exact ⟨hpx, hpk⟩
              rw [hattach]
              by_cases hk1 : k = s.span
              · rw [if_pos hk1]
                constructor
                · intro _
                  exact ⟨Or.inr hxk, hx, hk1.symm⟩
                · intro _
                  rw [List.mem_append]
                  right
                  rw [List.mem_filter, List.mem_filter]
                  refine ⟨⟨hxmemr, ?_⟩, ?_⟩
                  · rw [hPother x hx]
                    simpa using hpx
                  · rw [hPother x hx]
                    simpa using hpxr
              · rw [if_neg hk1]
                by_cases hk2 : k = r
                · rw [if_pos hk2]
                  constructor
                  · intro hmem
                    rw [List.mem_filter, List.mem_filter] at hmem
                    have := of_decide_eq_true hmem.2
                    rw [hPother x hx] at this
                    exact absurd this hpxr
                  · intro hrhs
                    exact absurd hrhs.2.2.symm hk1
                · rw [if_neg hk2]
                  constructor
                  · intro hmem
                    have := (hxonly k).mp hmem
                    rw [hL0] at this
                    exact absurd this.symm hk2
                  · intro hrhs
                    exact absurd hrhs.2.2.symm hk1
      · have hxnone : alookup sm x = none := by
          cases hxa : alookup sm x
          · rfl
          · rw [hxa] at hxk
            exact absurd rfl hxk
        constructor
        · intro hmem
          exfalso
          split_ifs at hmem with h1 h2
          · rw [List.mem_append, List.mem_append] at hmem
            rcases hmem with (hm | hm) | hm
            · rw [List.mem_filter] at hm
              exact hInv.not_mem_of_absent hxnone r hm.1
            · simp at hm
              refine hxk ?_
              rw [hm]
              exact hInv.isSome_root
            · rw [List.mem_filter, List.mem_filter] at hm
              exact hInv.not_mem_of_absent hxnone r hm.1.1
          · rw [List.mem_filter, List.mem_filter] at hmem
            exact hInv.not_mem_of_absent hxnone r hmem.1.1
          · exact hInv.not_mem_of_absent hxnone k hmem
        · intro hrhs
          rcases hrhs.1 with hc | hc
          · exact absurd hc hx
          · exact absurd hc hxk
  · intro k
    rw [hch k]
    have hnd1 : ((childrenOf sm r).filter fun c =>
        pfShift sm s c = s.span).Nodup := (hInv.sub_nodup r).filter _
    have hnd2 : (((childrenOf sm r).filter fun c =>
        ¬ pfShift sm s c = s.span).filter fun c =>
        ¬ pfShift sm s c = r).Nodup := ((hInv.sub_nodup r).filter _).filter _
    split_ifs with h1 h2
    · rw [List.nodup_append, List.nodup_append]
      refine ⟨⟨hnd1, List.nodup_singleton _, ?_⟩, hnd2, ?_⟩
      · intro a ha hb
        simp at hb
        rw [List.mem_filter] at ha
        rw [hb] at ha
        exact hInv.root_not_mem r ha.1
      · intro a ha hb
        rw [List.mem_filter, List.mem_filter] at hb
        rw [List.mem_append] at ha
        rcases ha with ha | ha
        · rw [List.mem_filter] at ha
          have ha2 := of_decide_eq_true ha.2
          have hb2 := of_decide_eq_true hb.1.2
          exact hb2 ha2
        · simp at ha
          rw [ha] at hb
          exact hInv.root_not_mem r hb.1.1
    · exact ((hInv.sub_nodup r).filter _).filter _
    · exact hInv.sub_nodup k

/-- Core step, shape four: promotion of a fresh span to root where the
old root's stored parent is itself a registered node, so the demoted old
root is re-inserted under that parent. -/
theorem invSM_step_promoParent
    (S : List SpanID) (sm : SpanMap) (r : ID) (hInv : InvSM S sm r)
    (s : SpanID) (sm' : SpanMap)
    (hfresh : alookup sm s.span = none)
    (hps : s.parent ≠ s.span)
    (hrr : ∀ u ∈ S, u.parent = 0 → s.span = u.span)
    (hpk : (alookup sm (parentOf sm r)).isSome = true)
    (hprr : parentOf sm r ≠ r)
    (hkeys : ∀ k, (alookup sm' k).isSome = true ↔
      (k = s.span ∨ (alookup sm k).isSome = true))
    (hsid : ∀ k, (alookup sm' k).map TraceNode.sid =
      if k = s.span then some s else (alookup sm k).map TraceNode.sid)
    (hch : ∀ k, childrenOf sm' k =
      if k = s.span then
        (childrenOf sm r).filter (fun c => pfShift sm s c = s.span) ++
          ((childrenOf sm r).filter fun c => ¬ pfShift sm s c = s.span).filter
            (fun c => ¬ pfShift sm s c = r)
      else if k = r then
        ((childrenOf sm r).filter fun c => ¬ pfShift sm s c = s.span).filter
          (fun c => pfShift sm s c = r)
      else if k = parentOf sm r then childrenOf sm (parentOf sm r) ++ [r]
      else childrenOf sm k) :
    InvSM (s :: S) sm' s.span := by
  have hkeyne : ∀ y, (alookup sm y).isSome = true → y ≠ s.span := by
    intro y hy hc
    rw [hc, hfresh] at hy
    cases hy
  have hrne : r ≠ s.span := hkeyne r hInv.isSome_root
  have hprs : parentOf sm r ≠ s.span := hkeyne _ hpk
  have hpf : ∀ x, parentOf sm' x = pfShift sm s x := by
    intro x
    rw [parentOf_map_sid sm' x, hsid x]
    unfold pfShift
    by_cases hx : x = s.span
    · simp [hx]
    · rw [if_neg hx, if_neg hx, ← parentOf_map_sid]
  have hap : ∀ x, attachPoint sm' s.span x =
      if pfShift sm s x = s.span ∨ (alookup sm (pfShift sm s x)).isSome = true
      then pfShift sm s x else s.span := by
    intro x
    unfold attachPoint
    rw [hpf x]
    have hiff := hkeys (pfShift sm s x)
    by_cases hc : (alookup sm' (pfShift sm s x)).isSome = true
    · rw [if_pos hc, if_pos (hiff.mp hc)]
    · rw [if_neg hc, if_neg (fun hcc => hc (hiff.mpr hcc))]
  have hPx : pfShift sm s s.span = s.parent := by
    unfold pfShift
    rw [if_pos rfl]
  have hPother : ∀ x, x ≠ s.span → pfShift sm s x = parentOf sm x := by
    intro x hx
    unfold pfShift
    rw [if_neg hx]
  refine ⟨?_, ?_, ?_, ?_, ?_, ?_⟩
  · intro u hu
    rcases List.mem_cons.mp hu with hu | hu
    · subst hu
      have h1 := hsid u.span
      rw [if_pos rfl] at h1
      obtain ⟨nd, hnd, hnds⟩ := Option.map_eq_some'.mp h1
      exact ⟨nd, hnd, hnds⟩
    · obtain ⟨nd, hnd, hnds⟩ := hInv.node_sid u hu
      have hune : u.span ≠ s.span := by
        intro hc
        rw [hc, hfresh] at hnd
        cases hnd
      have h1 := hsid u.span
      rw [if_neg hune, hnd] at h1
      obtain ⟨nd2, hnd2, hnds2⟩ := Option.map_eq_some'.mp h1
      exact ⟨nd2, hnd2, by rw [hnds2, hnds]⟩
  · intro k hk
    rcases (hkeys k).mp hk with hk | hk
    · simp [hk]
    · have := hInv.keys_sub k hk
      simp only [List.map_cons, List.mem_cons]
      exact Or.inr this
  · simp
  · intro u hu hu0
    rcases List.mem_cons.mp hu with hu | hu
    · subst hu
      rfl
    · exact hrr u hu hu0
  · intro x k
    rw [hch k, hap x, hkeys x]
    by_cases hx : x = s.span
    · subst hx
      constructor
      · intro hmem
        exfalso
        split_ifs at hmem with h1 h2 h3
        · rw [List.mem_append] at hmem
          rcases hmem with hm | hm
          · rw [List.mem_filter] at hm
            exact hInv.not_mem_of_absent hfresh r hm.1
          · rw [List.mem_filter, List.mem_filter] at hm
            exact hInv.not_mem_of_absent hfresh r hm.1.1
        · rw [List.mem_filter, List.mem_filter] at hmem
          exact hInv.not_mem_of_absent hfresh r hmem.1.1
        · rw [List.mem_append] at hmem
          rcases hmem with hm | hm
          · exact hInv.not_mem_of_absent hfresh _ hm
          · simp at hm
            exact hrne hm.symm
        · exact hInv.not_mem_of_absent hfresh k hmem
      · intro hrhs
        exact absurd rfl hrhs.2.1
    · rw [hPother x hx]
      by_cases hxk : (alookup sm x).isSome = true
      · by_cases hxr : x = r
        · -- the demoted old root, re-inserted under its parent
          have hattach : (if parentOf sm x = s.span ∨
              (alookup sm (parentOf sm x)).isSome = true
              then parentOf sm x else s.span) = parentOf sm r := by
            rw [hxr]
            exact if_pos (Or.inr hpk)
          rw [hattach]
          by_cases hk1 : k = s.span
          · rw [if_pos hk1]
            constructor
            · intro hmem
              exfalso
              rw [List.mem_append] at hmem
              rcases hmem with hm | hm
              · rw [List.mem_filter] at hm
                rw [hxr] at hm
                exact hInv.root_not_mem r hm.1
              · rw [List.mem_filter, List.mem_filter] at hm
                rw [hxr] at hm
                exact hInv.root_not_mem r hm.1.1
            · intro hrhs
              exact absurd (hrhs.2.2.trans hk1) hprs
          · rw [if_neg hk1]
            by_cases hk2 : k = r
            · rw [if_pos hk2]
              constructor
              · intro hmem
                rw [List.mem_filter, List.mem_filter] at hmem
                rw [hxr] at hmem
                exact absurd hmem.1.1 (hInv.root_not_mem r)
              · intro hrhs
                exact absurd (hrhs.2.2.trans hk2) hprr
            · rw [if_neg hk2]
              by_cases hk3 : k = parentOf sm r
              · rw [if_pos hk3]
                constructor
                · intro _
                  exact ⟨Or.inr hxk, fun hc => hx hc, hk3.symm⟩
                · intro _
                  rw [List.mem_append]
                  right
                  simp [hxr]
              · rw [if_neg hk3]
                constructor
                · intro hmem
                  rw [hxr] at hmem
                  exact absurd hmem (hInv.root_not_mem k)
                · intro hrhs
                  exact absurd hrhs.2.2.symm hk3
        · have hxin : x ∈ childrenOf sm (attachPoint sm r x) :=
            (hInv.sub_iff x _).mpr ⟨hxk, hxr, rfl⟩
          have hxonly : ∀ j, x ∈ childrenOf sm j ↔ attachPoint sm r x = j := by
            intro j
            rw [hInv.sub_iff x j]
            constructor
            · exact fun hh => hh.2.2
            · exact fun hh => ⟨hxk, hxr, hh⟩
          by_cases hpx : parentOf sm x = s.span
          · have hL0 : attachPoint sm r x = r := by
              unfold attachPoint
              rw [hpx, hfresh]
              rfl
            have hxmemr : x ∈ childrenOf sm r := by
              rw [← hL0]
              exact hxin
            have hattach : (if parentOf sm x = s.span ∨
                (alookup sm (parentOf sm x)).isSome = true
                then parentOf sm x else s.span) = s.span := by
              rw [if_pos (Or.inl hpx)]
              exact hpx
            rw [hattach]
            by_cases hk1 : k = s.span
            · rw [if_pos hk1]
              constructor
              · intro _
                exact ⟨Or.inr hxk, hx, hk1.symm⟩
              · intro _
                rw [List.mem_append]
                left
                rw [List.mem_filter]
                refine ⟨hxmemr, ?_⟩
                rw [hPother x hx]
                simpa using hpx
            · rw [if_neg hk1]
              by_cases hk2 : k = r
              · rw [if_pos hk2]
                constructor
                · intro hmem
                  rw [List.mem_filter, List.mem_filter] at hmem
                  have := of_decide_eq_true hmem.1.2
                  rw [hPother x hx] at this
                  exact absurd hpx this
                · intro hrhs
                  exact absurd hrhs.2.2.symm hk1
              · rw [if_neg hk2]
                by_cases hk3 : k = parentOf sm r
                · rw [if_pos hk3]
                  constructor
                  · intro hmem
                    rw [List.mem_append] at hmem
                    rcases hmem with hm | hm
                    · have := (hxonly _).mp hm
                      rw [hL0] at this
                      exact absurd this.symm hprr
                    · simp at hm
                      exact absurd hm hxr
                  · intro hrhs
                    exact absurd hrhs.2.2.symm hk1
                · rw [if_neg hk3]
                  constructor
                  · intro hmem
                    have := (hxonly k).mp hmem
                    rw [hL0] at this
                    exact absurd this.symm hk2
                  · intro hrhs
                    exact absurd hrhs.2.2.symm hk1
          · by_cases hpk0 : (alookup sm (parentOf sm x)).isSome = true
            · have hL0 : attachPoint sm r x = parentOf sm x := by
                unfold attachPoint
                rw [if_pos hpk0]
              have hattach : (if parentOf sm x = s.span ∨
                  (alookup sm (parentOf sm x)).isSome = true
                  then parentOf sm x else s.span) = parentOf sm x :=
                if_pos (Or.inr hpk0)
              rw [hattach]
              by_cases hqr0 : parentOf sm x = r
              · have hxmemr : x ∈ childrenOf sm r := by
                  rw [← hqr0, ← hL0]
                  exact hxin
                by_cases hk1 : k = s.span
                · rw [if_pos hk1]
                  constructor
                  · intro hmem
                    exfalso
                    rw [List.mem_append] at hmem
                    rcases hmem with hm | hm
                    · rw [List.mem_filter] at hm
                      have := of_decide_eq_true hm.2
                      rw [hPother x hx] at this
                      exact hpx this
                    · rw [List.mem_filter, List.mem_filter] at hm
                      have := of_decide_eq_true hm.2
                      rw [hPother x hx] at this
                      exact this hqr0
                  · intro hrhs
                    rw [hqr0] at hrhs
                    exact absurd (hrhs.2.2.trans hk1) hrne
                · rw [if_neg hk1]
                  by_cases hk2 : k = r
                  · rw [if_pos hk2]
                    constructor
                    · intro _
                      exact ⟨Or.inr hxk, hx, by rw [hqr0, hk2]⟩
                    · intro _
                      rw [List.mem_filter, List.mem_filter]
                      refine ⟨⟨hxmemr, ?_⟩, ?_⟩
                      · rw [hPother x hx]
                        simpa using hpx
                      · rw [hPother x hx]
                        simpa using hqr0
                  · rw [if_neg hk2]
                    by_cases hk3 : k = parentOf sm r
                    · rw [if_pos hk3]
                      constructor
                      · intro hmem
                        rw [List.mem_append] at hmem
                        rcases hmem with hm | hm
                        · have := (hxonly _).mp hm
                          rw [hL0, hqr0] at this
                          exact absurd this.symm hprr
                        · simp at hm
                          exact absurd hm hxr
                      · intro hrhs
                        rw [hqr0] at hrhs
                        exact absurd (hrhs.2.2.trans hk3) (fun hc => hprr hc.symm)
                    · rw [if_neg hk3]
                      constructor
                      · intro hmem
                        have := (hxonly k).mp hmem
                        rw [hL0, hqr0] at this
                        exact absurd this.symm hk2
                      · intro hrhs
                        rw [hqr0] at hrhs
                        exact absurd hrhs.2.2.symm hk2
              · by_cases hk1 : k = s.span
                · rw [if_pos hk1]
                  constructor
                  · intro hmem
                    exfalso
                    rw [List.mem_append] at hmem
                    rcases hmem with hm | hm
                    · rw [List.mem_filter] at hm
                      have := of_decide_eq_true hm.2
                      rw [hPother x hx] at this
                      exact hpx this
                    · rw [List.mem_filter, List.mem_filter] at hm
                      have := (hxonly r).mp hm.1.1
                      rw [hL0] at this
                      exact hqr0 this
                  · intro hrhs
                    exact absurd (hrhs.2.2.trans hk1) (hkeyne _ hpk0)
                · rw [if_neg hk1]
                  by_cases hk2 : k = r
                  · rw [if_pos hk2]
                    constructor
                    · intro hmem
                      rw [List.mem_filter, List.mem_filter] at hmem
                      have := (hxonly r).mp hmem.1.1
                      rw [hL0] at this
                      exact absurd this hqr0
                    · intro hrhs
                      exact absurd (hrhs.2.2.trans hk2) hqr0
                  · rw [if_neg hk2]
                    by_cases hk3 : k = parentOf sm r
                    · rw [if_pos hk3]
                      constructor
                      · intro hmem
                        rw [List.mem_append] at hmem
                        rcases hmem with hm | hm
                        · have := (hxonly _).mp hm
                          rw [hL0] at this
                          exact ⟨Or.inr hxk, hx, by rw [this, hk3]⟩
                        · simp at hm
                          exact absurd hm hxr
                      · intro hrhs
                        rw [List.mem_append]
                        exact Or.inl ((hxonly _).mpr
                          (hL0.trans (hrhs.2.2.trans hk3)))
                    · rw [if_neg hk3]
                      rw [hxonly k, hL0]
                      constructor
                      · intro hh
                        exact ⟨Or.inr hxk, hx, hh⟩
                      · exact fun hh => hh.2.2
            · have hL0 : attachPoint sm r x = r := by
                unfold attachPoint
                rw [if_neg hpk0]
              have hxmemr : x ∈ childrenOf sm r := by
                rw [← hL0]
                exact hxin
              have hpxr : parentOf sm x ≠ r := by
                intro hc
                rw [hc] at hpk0
                exact hpk0 hInv.isSome_root
              have hattach : (if parentOf sm x = s.span ∨
                  (alookup sm (parentOf sm x)).isSome = true
                  then parentOf sm x else s.span) = s.span := by
                rw [if_neg]
                push_neg
                exact ⟨hpx, hpk0⟩
              rw [hattach]
              by_cases hk1 : k = s.span
              · rw [if_pos hk1]
                constructor
                · intro _
                  exact ⟨Or.inr hxk, hx, hk1.symm⟩
                · intro _
                  rw [List.mem_append]
                  right
                  rw [List.mem_filter, List.mem_filter]
                  refine ⟨⟨hxmemr, ?_⟩, ?_⟩
                  · rw [hPother x hx]
                    simpa using hpx
                  · rw [hPother x hx]
                    simpa using hpxr
              · rw [if_neg hk1]
                by_cases hk2 : k = r
                · rw [if_pos hk2]
                  constructor
                  · intro hmem
                    rw [List.mem_filter, List.mem_filter] at hmem
                    have := of_decide_eq_true hmem.2
                    rw [hPother x hx] at this
                    exact absurd this hpxr
                  · intro hrhs
                    exact absurd hrhs.2.2.symm hk1
                · rw [if_neg hk2]
                  by_cases hk3 : k = parentOf sm r
                  · rw [if_pos hk3]
                    constructor
                    · intro hmem
                      rw [List.mem_append] at hmem
                      rcases hmem with hm | hm
                      · have := (hxonly _).mp hm
                        rw [hL0] at this
                        exact absurd this.symm hprr
                      · simp at hm
                        exact absurd hm hxr
                    · intro hrhs
                      exact absurd hrhs.2.2.symm hk1
                  · rw [if_neg hk3]
                    constructor
                    · intro hmem
                      have := (hxonly k).mp hmem
                      rw [hL0] at this
                      exact absurd this.symm hk2
                    · intro hrhs
                      exact absurd hrhs.2.2.symm hk1
      · have hxnone : alookup sm x = none := by
          cases hxa : alookup sm x
          · rfl
          · rw [hxa] at hxk
            exact absurd rfl hxk
        constructor
        · intro hmem
          exfalso
          split_ifs at hmem with h1 h2 h3
          · rw [List.mem_append] at hmem
            rcases hmem with hm | hm
            · rw [List.mem_filter] at hm
              exact hInv.not_mem_of_absent hxnone r hm.1
            · rw [List.mem_filter, List.mem_filter] at hm
              exact hInv.not_mem_of_absent hxnone r hm.1.1
          · rw [List.mem_filter, List.mem_filter] at hmem
            exact hInv.not_mem_of_absent hxnone r hmem.1.1
          · rw [List.mem_append] at hmem
            rcases hmem with hm | hm
            · exact hInv.not_mem_of_absent hxnone _ hm
            · simp at hm
              refine hxk ?_
              rw [hm]
              exact hInv.isSome_root
          · exact hInv.not_mem_of_absent hxnone k hmem
        · intro hrhs
          rcases hrhs.1 with hc | hc
          · exact absurd hc hx
          · exact absurd hc hxk
  · intro k
    rw [hch k]
    split_ifs with h1 h2 h3
    · rw [List.nodup_append]
      refine ⟨(hInv.sub_nodup r).filter _, ((hInv.sub_nodup r).filter _).filter _, ?_⟩
      intro a ha hb
      rw [List.mem_filter] at ha
      rw [List.mem_filter, List.mem_filter] at hb
      have ha2 := of_decide_eq_true ha.2
      have hb2 := of_decide_eq_true hb.1.2
      exact hb2 ha2
    · exact ((hInv.sub_nodup r).filter _).filter _
    · rw [List.nodup_append]
      refine ⟨hInv.sub_nodup _, List.nodup_singleton _, ?_⟩
      intro a ha hb
      simp at hb
      rw [hb] at ha
      exact hInv.root_not_mem _ ha
    · exact hInv.sub_nodup k

theorem ownSpanOf_nupd (sm : SpanMap) (k : ID) (f : TraceNode → TraceNode) (x : ID)
    (hf : ∀ n, (f n).sid = n.sid) :
    ownSpanOf (nupd sm k f) x = ownSpanOf sm x := by
  unfold ownSpanOf
  rw [alookup_nupd]
  by_cases h : x = k
  · subst h
    cases halt : alookup sm x <;> simp [hf]
  · simp [h]

/-! ## State characterization of the `Collect` branches -/

theorem sm1_keys (sm : SpanMap) (s : SpanID) (as : List Annotation) (k : ID) :
    (alookup (aset sm s.span ⟨s, as, []⟩) k).isSome = true ↔
      (k = s.span ∨ (alookup sm k).isSome = true) := by
  rw [alookup_aset]
  by_cases h : k = s.span <;> simp [h]

theorem sm1_sid (sm : SpanMap) (s : SpanID) (as : List Annotation) (k : ID) :
    (alookup (aset sm s.span ⟨s, as, []⟩) k).map TraceNode.sid =
      if k = s.span then some s else (alookup sm k).map TraceNode.sid := by
  rw [alookup_aset]
  by_cases h : k = s.span <;> simp [h]

theorem sm1_parentOf (sm : SpanMap) (s : SpanID) (as : List Annotation) (x : ID) :
    parentOf (aset sm s.span ⟨s, as, []⟩) x = pfShift sm s x := by
  unfold parentOf pfShift
  rw [alookup_aset]
  by_cases h : x = s.span <;> simp [h]
  rfl

theorem sm1_ownSpan_self (sm : SpanMap) (s : SpanID) (as : List Annotation) :
    ownSpanOf (aset sm s.span ⟨s, as, []⟩) s.span = s.span := by
  unfold ownSpanOf
  rw [alookup_aset, if_pos rfl]
  rfl

theorem sm1_children_self (sm : SpanMap) (s : SpanID) (as : List Annotation) :
    childrenOf (aset sm s.span ⟨s, as, []⟩) s.span = [] := by
  unfold childrenOf
  rw [alookup_aset, if_pos rfl]
  rfl

theorem sm1_children_ne (sm : SpanMap) (s : SpanID) (as : List Annotation)
    (k : ID) (h : k ≠ s.span) :
    childrenOf (aset sm s.span ⟨s, as, []⟩) k = childrenOf sm k := by
  unfold childrenOf
  rw [alookup_aset, if_neg h]

theorem sm1_lookup_self (sm : SpanMap) (s : SpanID) (as : List Annotation) :
    alookup (aset sm s.span ⟨s, as, []⟩) s.span = some ⟨s, as, []⟩ := by
  rw [alookup_aset, if_pos rfl]

theorem sm1_lookup_ne (sm : SpanMap) (s : SpanID) (as : List Annotation)
    (k : ID) (h : k ≠ s.span) :
    alookup (aset sm s.span ⟨s, as, []⟩) k = alookup sm k := by
  rw [alookup_aset, if_neg h]

theorem childrenOf_eq (sm : SpanMap) (k : ID) (nd : TraceNode)
    (h : alookup sm k = some nd) : childrenOf sm k = nd.sub := by
  unfold childrenOf
  rw [h]
  rfl

/-- Final state of the non-promotion branch when the fresh span's stored
parent is the root or unregistered: the span is appended to the root's
child list by `insert`, then the self-reattachment splits the root's
extended list between the new node and the root. -/
theorem np_final_A (sm : SpanMap) (s : SpanID) (as : List Annotation) (r : ID)
    (rn : TraceNode)
    (hfresh : alookup sm s.span = none)
    (hps : s.parent ≠ s.span)
    (hr : alookup sm r = some rn)
    (hrneq : r ≠ s.span)
    (hpr : s.parent = r ∨ alookup sm s.parent = none) :
    (∀ k, (alookup (reattachD (insertNode (aset sm s.span ⟨s, as, []⟩) r s.span)
        s.span r) k).isSome = true ↔
      (k = s.span ∨ (alookup sm k).isSome = true)) ∧
    (∀ k, (alookup (reattachD (insertNode (aset sm s.span ⟨s, as, []⟩) r s.span)
        s.span r) k).map TraceNode.sid =
      if k = s.span then some s else (alookup sm k).map TraceNode.sid) ∧
    (∀ k, childrenOf (reattachD (insertNode (aset sm s.span ⟨s, as, []⟩) r s.span)
        s.span r) k =
      if k = s.span then
        (childrenOf sm r ++ [s.span]).filter fun c => pfShift sm s c = s.span
      else if k = r then
        (childrenOf sm r ++ [s.span]).filter fun c => ¬ pfShift sm s c = s.span
      else childrenOf sm k) := by
  have hsne : s.span ≠ r := fun hc => hrneq hc.symm
  have hp1 : parentOf (aset sm s.span ⟨s, as, []⟩) s.span = s.parent := by
    rw [sm1_parentOf]
    unfold pfShift
    rw [if_pos rfl]
  have hins : insertNode (aset sm s.span ⟨s, as, []⟩) r s.span =
      nupd (aset sm s.span ⟨s, as, []⟩) r
        fun n => ⟨n.sid, n.annotations, n.sub ++ [s.span]⟩ := by
    rcases hpr with hc | hc
    · have hlk : alookup (aset sm s.span ⟨s, as, []⟩)
          (parentOf (aset sm s.span ⟨s, as, []⟩) s.span) = some rn := by
        rw [hp1, hc, sm1_lookup_ne sm s as r hrneq]
        exact hr
      rw [insertNode_present _ _ _ rn hlk, hp1, hc]
    · have hlk : alookup (aset sm s.span ⟨s, as, []⟩)
          (parentOf (aset sm s.span ⟨s, as, []⟩) s.span) = none := by
        rw [hp1, sm1_lookup_ne sm s as s.parent hps]
        exact hc
      rw [insertNode_absent _ _ _ hlk]
  rw [hins]
  have hpar2 : ∀ c, parentOf (nupd (aset sm s.span ⟨s, as, []⟩) r
      fun n => ⟨n.sid, n.annotations, n.sub ++ [s.span]⟩) c = pfShift sm s c := by
    intro c
    rw [parentOf_nupd, sm1_parentOf]
    exact fun n => rfl
  have hown2 : ownSpanOf (nupd (aset sm s.span ⟨s, as, []⟩) r
      fun n => ⟨n.sid, n.annotations, n.sub ++ [s.span]⟩) s.span = s.span := by
    rw [ownSpanOf_nupd, sm1_ownSpan_self]
    exact fun n => rfl
  have hlook2s : alookup (nupd (aset sm s.span ⟨s, as, []⟩) r
      fun n => ⟨n.sid, n.annotations, n.sub ++ [s.span]⟩) s.span =
      some ⟨s, as, []⟩ := by
    rw [alookup_nupd, if_neg hsne, sm1_lookup_self]
  have hlook2r : alookup (nupd (aset sm s.span ⟨s, as, []⟩) r
      fun n => ⟨n.sid, n.annotations, n.sub ++ [s.span]⟩) r =
      some ⟨rn.sid, rn.annotations, rn.sub ++ [s.span]⟩ := by
    rw [alookup_nupd, if_pos rfl, sm1_lookup_ne sm s as r hrneq, hr]
    rfl
  have hch2r : childrenOf (nupd (aset sm s.span ⟨s, as, []⟩) r
      fun n => ⟨n.sid, n.annotations, n.sub ++ [s.span]⟩) r =
      childrenOf sm r ++ [s.span] := by
    rw [childrenOf_eq _ _ _ hlook2r, childrenOf_eq sm r rn hr]
  have hch2s : childrenOf (nupd (aset sm s.span ⟨s, as, []⟩) r
      fun n => ⟨n.sid, n.annotations, n.sub ++ [s.span]⟩) s.span = [] := by
    rw [childrenOf_nupd_ne _ _ _ _ hsne, sm1_children_self]
  refine ⟨?_, ?_, ?_⟩
  · intro k
    rw [isSome_reattachD, alookup_isSome_nupd]
    exact sm1_keys sm s as k
  · intro k
    rw [sid_reattachD, sid_nupd]
    · exact sm1_sid sm s as k
    · exact fun n => rfl
  · intro k
    by_cases hk1 : k = s.span
    · subst hk1
      rw [if_pos rfl]
      rw [childrenOf_reattachD_dst _ _ _ hsne _ hlook2s, hch2s, hch2r, hown2]
      simp only [hpar2]
      rfl
    · rw [if_neg hk1]
      by_cases hk2 : k = r
      · subst hk2
        rw [if_pos rfl]
        rw [childrenOf_reattachD_src _ _ _ hsne _ hlook2r, hch2r, hown2]
        simp only [hpar2]
      · rw [if_neg hk2]
        rw [childrenOf_reattachD_other _ _ _ _ hk1 hk2,
          childrenOf_nupd_ne _ _ _ _ hk2, sm1_children_ne sm s as k hk1]

/-- Final state of the non-promotion branch when the fresh span's stored
parent is a registered node other than the root. -/
theorem np_final_B (sm : SpanMap) (s : SpanID) (as : List Annotation) (r : ID)
    (rn qnd : TraceNode)
    (hfresh : alookup sm s.span = none)
    (hps : s.parent ≠ s.span)
    (hr : alookup sm r = some rn)
    (hrneq : r ≠ s.span)
    (hq : alookup sm s.parent = some qnd)
    (hqr : s.parent ≠ r) :
    (∀ k, (alookup (reattachD (insertNode (aset sm s.span ⟨s, as, []⟩) r s.span)
        s.span r) k).isSome = true ↔
      (k = s.span ∨ (alookup sm k).isSome = true)) ∧
    (∀ k, (alookup (reattachD (insertNode (aset sm s.span ⟨s, as, []⟩) r s.span)
        s.span r) k).map TraceNode.sid =
      if k = s.span then some s else (alookup sm k).map TraceNode.sid) ∧
    (∀ k, childrenOf (reattachD (insertNode (aset sm s.span ⟨s, as, []⟩) r s.span)
        s.span r) k =
      if k = s.span then
        (childrenOf sm r).filter fun c => pfShift sm s c = s.span
      else if k = r then
        (childrenOf sm r).filter fun c => ¬ pfShift sm s c = s.span
      else if k = s.parent then childrenOf sm s.parent ++ [s.span]
      else childrenOf sm k) := by
  have hsne : s.span ≠ r := fun hc => hrneq hc.symm
  have hsps : s.span ≠ s.parent := fun hc => hps hc.symm
  have hp1 : parentOf (aset sm s.span ⟨s, as, []⟩) s.span = s.parent := by
    rw [sm1_parentOf]
    unfold pfShift
    rw [if_pos rfl]
  have hins : insertNode (aset sm s.span ⟨s, as, []⟩) r s.span =
      nupd (aset sm s.span ⟨s, as, []⟩) s.parent
        fun n => ⟨n.sid, n.annotations, n.sub ++ [s.span]⟩ := by
    have hlk : alookup (aset sm s.span ⟨s, as, []⟩)
        (parentOf (aset sm s.span ⟨s, as, []⟩) s.span) = some qnd := by
      rw [hp1, sm1_lookup_ne sm s as s.parent hps]
      exact hq
    rw [insertNode_present _ _ _ qnd hlk, hp1]
  rw [hins]
  have hpar2 : ∀ c, parentOf (nupd (aset sm s.span ⟨s, as, []⟩) s.parent
      fun n => ⟨n.sid, n.annotations, n.sub ++ [s.span]⟩) c = pfShift sm s c := by
    intro c
    rw [parentOf_nupd, sm1_parentOf]
    exact fun n => rfl
  have hown2 : ownSpanOf (nupd (aset sm s.span ⟨s, as, []⟩) s.parent
      fun n => ⟨n.sid, n.annotations, n.sub ++ [s.span]⟩) s.span = s.span := by
    rw [ownSpanOf_nupd, sm1_ownSpan_self]
    exact fun n => rfl
  have hlook2s : alookup (nupd (aset sm s.span ⟨s, as, []⟩) s.parent
      fun n => ⟨n.sid, n.annotations, n.sub ++ [s.span]⟩) s.span =
      some ⟨s, as, []⟩ := by
    rw [alookup_nupd, if_neg hsps, sm1_lookup_self]
  have hlook2r : alookup (nupd (aset sm s.span ⟨s, as, []⟩) s.parent
      fun n => ⟨n.sid, n.annotations, n.sub ++ [s.span]⟩) r = some rn := by
    rw [alookup_nupd, if_neg (fun hc => hqr hc.symm),
      sm1_lookup_ne sm s as r hrneq]
    exact hr
  have hch2r : childrenOf (nupd (aset sm s.span ⟨s, as, []⟩) s.parent
      fun n => ⟨n.sid, n.annotations, n.sub ++ [s.span]⟩) r =
      childrenOf sm r := by
    rw [childrenOf_eq _ _ _ hlook2r, childrenOf_eq sm r rn hr]
  have hch2s : childrenOf (nupd (aset sm s.span ⟨s, as, []⟩) s.parent
      fun n => ⟨n.sid, n.annotations, n.sub ++ [s.span]⟩) s.span = [] := by
    rw [childrenOf_nupd_ne _ _ _ _ hsps, sm1_children_self]
  have hch2sp : childrenOf (nupd (aset sm s.span ⟨s, as, []⟩) s.parent
      fun n => ⟨n.sid, n.annotations, n.sub ++ [s.span]⟩) s.parent =
      childrenOf sm s.parent ++ [s.span] := by
    have hlk1 : alookup (aset sm s.span ⟨s, as, []⟩) s.parent = some qnd := by
      rw [sm1_lookup_ne sm s as s.parent hps]
      exact hq
    rw [childrenOf_nupd_self _ _ _ _ hlk1, childrenOf_eq sm s.parent qnd hq]
  refine ⟨?_, ?_, ?_⟩
  · intro k
    rw [isSome_reattachD, alookup_isSome_nupd]
    exact sm1_keys sm s as k
  · intro k
    rw [sid_reattachD, sid_nupd]
    · exact sm1_sid sm s as k
    · exact fun n => rfl
  · intro k
    by_cases hk1 : k = s.span
    · subst hk1
      rw [if_pos rfl]
      rw [childrenOf_reattachD_dst _ _ _ hsne _ hlook2s, hch2s, hch2r, hown2]
      simp only [hpar2]
      rfl
    · rw [if_neg hk1]
      by_cases hk2 : k = r
      · subst hk2
        rw [if_pos rfl]
        rw [childrenOf_reattachD_src _ _ _ hsne _ hlook2r, hch2r, hown2]
        simp only [hpar2]
      · rw [if_neg hk2]
        by_cases hk3 : k = s.parent
        · subst hk3
          rw [if_pos rfl]
          rw [childrenOf_reattachD_other _ _ _ _ hk1 hk2]
          exact hch2sp
        · rw [if_neg hk3]
          rw [childrenOf_reattachD_other _ _ _ _ hk1 hk2,
            childrenOf_nupd_ne _ _ _ _ hk3, sm1_children_ne sm s as k hk1]

theorem sm1_own_ne (sm : SpanMap) (s : SpanID) (as : List Annotation)
    (k : ID) (h : k ≠ s.span) :
    ownSpanOf (aset sm s.span ⟨s, as, []⟩) k = ownSpanOf sm k := by
  unfold ownSpanOf
  rw [alookup_aset, if_neg h]

theorem eq_none_of_isSome_eq_false {α : Type} {o : Option α}
    (h : ¬ o.isSome = true) : o = none := by
  cases o
  · rfl
  · exact absurd rfl h

/-- Final state of the promotion branch when the demoted old root is
re-inserted under the new root (its stored parent is the new span or is
unregistered). -/
theorem promo_final_C (sm : SpanMap) (s : SpanID) (as : List Annotation) (r : ID)
    (rn : TraceNode)
    (hfresh : alookup sm s.span = none)
    (hr : alookup sm r = some rn)
    (hrneq : r ≠ s.span)
    (hrs : rn.sid.span = r)
    (hprC : parentOf sm r = s.span ∨ alookup sm (parentOf sm r) = none) :
    (∀ k, (alookup (promoRest (reattachD (aset sm s.span ⟨s, as, []⟩) s.span r)
        s.span r) k).isSome = true ↔
      (k = s.span ∨ (alookup sm k).isSome = true)) ∧
    (∀ k, (alookup (promoRest (reattachD (aset sm s.span ⟨s, as, []⟩) s.span r)
        s.span r) k).map TraceNode.sid =
      if k = s.span then some s else (alookup sm k).map TraceNode.sid) ∧
    (∀ k, childrenOf (promoRest (reattachD (aset sm s.span ⟨s, as, []⟩) s.span r)
        s.span r) k =
      if k = s.span then
        (childrenOf sm r).filter (fun c => pfShift sm s c = s.span) ++ [r] ++
          ((childrenOf sm r).filter fun c => ¬ pfShift sm s c = s.span).filter
            (fun c => ¬ pfShift sm s c = r)
      else if k = r then
        ((childrenOf sm r).filter fun c => ¬ pfShift sm s c = s.span).filter
          (fun c => pfShift sm s c = r)
      else childrenOf sm k) := by
  have hsne : s.span ≠ r := fun hc => hrneq hc.symm
  set A1 := aset sm s.span ⟨s, as, []⟩ with hA1
  set SM2 := reattachD A1 s.span r with hSM2
  have hlk1s : alookup A1 s.span = some ⟨s, as, []⟩ := sm1_lookup_self sm s as
  have hlk1r : alookup A1 r = some rn := by
    rw [hA1, sm1_lookup_ne sm s as r hrneq]
    exact hr
  have hpar2 : ∀ c, parentOf SM2 c = pfShift sm s c := by
    intro c
    rw [hSM2, parentOf_reattachD, hA1, sm1_parentOf]
  have hch2s : childrenOf SM2 s.span =
      (childrenOf sm r).filter (fun c => pfShift sm s c = s.span) := by
    rw [hSM2, childrenOf_reattachD_dst _ _ _ hsne _ hlk1s, hA1,
      sm1_children_self, sm1_children_ne sm s as r hrneq, sm1_ownSpan_self]
    simp only [sm1_parentOf]
    rfl
  have hch2r : childrenOf SM2 r =
      (childrenOf sm r).filter (fun c => ¬ pfShift sm s c = s.span) := by
    rw [hSM2, childrenOf_reattachD_src _ _ _ hsne _ hlk1r, hA1,
      sm1_children_ne sm s as r hrneq, sm1_ownSpan_self]
    simp only [sm1_parentOf]
  have hch2o : ∀ k, k ≠ s.span → k ≠ r →
      childrenOf SM2 k = childrenOf sm k := by
    intro k h1 h2
    rw [hSM2, childrenOf_reattachD_other _ _ _ _ h1 h2, hA1,
      sm1_children_ne sm s as k h1]
  have hpr2 : parentOf SM2 r = parentOf sm r := by
    rw [hpar2]
    unfold pfShift
    rw [if_neg hrneq]
  have hkeys2 : ∀ k, (alookup SM2 k).isSome = true ↔
      (k = s.span ∨ (alookup sm k).isSome = true) := by
    intro k
    rw [hSM2, isSome_reattachD, hA1]
    exact sm1_keys sm s as k
  have hsid2 : ∀ k, (alookup SM2 k).map TraceNode.sid =
      if k = s.span then some s else (alookup sm k).map TraceNode.sid := by
    intro k
    rw [hSM2, sid_reattachD, hA1]
    exact sm1_sid sm s as k
  have hown2r : ownSpanOf SM2 r = r := by
    rw [hSM2, ownSpanOf_reattachD, hA1, sm1_own_ne sm s as r hrneq]
    unfold ownSpanOf
    rw [hr]
    exact hrs
  have hins3 : insertNode SM2 s.span r = nupd SM2 s.span
      fun n => ⟨n.sid, n.annotations, n.sub ++ [r]⟩ := by
    by_cases hprs : parentOf sm r = s.span
    · have hsome : (alookup SM2 (parentOf SM2 r)).isSome = true := by
        rw [hpr2, hprs, hkeys2]
        exact Or.inl rfl
      obtain ⟨nd, hnd⟩ := Option.isSome_iff_exists.mp hsome
      rw [insertNode_present _ _ _ nd hnd, hpr2, hprs]
    · rcases hprC with hc | hc
      · exact absurd hc hprs
      · have hnone : alookup SM2 (parentOf SM2 r) = none := by
          apply eq_none_of_isSome_eq_false
          rw [hpr2, hkeys2, hc]
          push_neg
          refine ⟨hprs, ?_⟩
          simp
        rw [insertNode_absent _ _ _ hnone]
  unfold promoRest
  dsimp only
  rw [hins3]
  set SM3 := nupd SM2 s.span
    (fun n => ⟨n.sid, n.annotations, n.sub ++ [r]⟩) with hSM3
  have hsome2s : (alookup SM2 s.span).isSome = true := by
    rw [hkeys2]
    exact Or.inl rfl
  obtain ⟨nd2s, hnd2s⟩ := Option.isSome_iff_exists.mp hsome2s
  have hch3s : childrenOf SM3 s.span =
      (childrenOf sm r).filter (fun c => pfShift sm s c = s.span) ++ [r] := by
    rw [hSM3, childrenOf_nupd_self _ _ _ _ hnd2s]
    show nd2s.sub ++ [r] = _
    rw [← childrenOf_eq _ _ _ hnd2s, hch2s]
  have hch3r : childrenOf SM3 r =
      (childrenOf sm r).filter (fun c => ¬ pfShift sm s c = s.span) := by
    rw [hSM3, childrenOf_nupd_ne _ _ _ _ hrneq]
    exact hch2r
  have hpar3 : ∀ c, parentOf SM3 c = pfShift sm s c := by
    intro c
    rw [hSM3, parentOf_nupd, hpar2]
    exact fun n => rfl
  have hown3r : ownSpanOf SM3 r = r := by
    rw [hSM3, ownSpanOf_nupd, hown2r]
    exact fun n => rfl
  have hkeys3 : ∀ k, (alookup SM3 k).isSome = true ↔
      (k = s.span ∨ (alookup sm k).isSome = true) := by
    intro k
    rw [hSM3, alookup_isSome_nupd]
    exact hkeys2 k
  refine ⟨?_, ?_, ?_⟩
  · intro k
    rw [alookup_isSome_nupd, alookup_isSome_nupd]
    exact hkeys3 k
  · intro k
    rw [sid_nupd, sid_nupd]
    · rw [hSM3, sid_nupd]
      · exact hsid2 k
      · exact fun n => rfl
    · exact fun n => rfl
    · exact fun n => rfl
  · intro k
    by_cases hk1 : k = s.span
    · subst hk1
      rw [if_pos rfl]
      rw [childrenOf_nupd_ne _ _ _ _ hsne]
      have hsome3s : (alookup SM3 s.span).isSome = true := by
        rw [hkeys3]
        exact Or.inl rfl
      obtain ⟨nd3s, hnd3s⟩ := Option.isSome_iff_exists.mp hsome3s
      rw [childrenOf_nupd_self _ _ _ _ hnd3s]
      show nd3s.sub ++ _ = _
      rw [← childrenOf_eq _ _ _ hnd3s, hch3s, hch3r, hown3r]
      simp only [hpar3]
    · rw [if_neg hk1]
      by_cases hk2 : k = r
      · rw [if_pos hk2, hk2]
        have hsome4 : (alookup (nupd SM3 s.span fun rr =>
            ⟨rr.sid, rr.annotations, rr.sub ++ (childrenOf SM3 r).filter
              fun c => ¬ parentOf SM3 c = ownSpanOf SM3 r⟩) r).isSome
            = true := by
          rw [alookup_isSome_nupd, hkeys3]
          right
          rw [hr]
          rfl
        obtain ⟨nd4, hnd4⟩ := Option.isSome_iff_exists.mp hsome4
        rw [childrenOf_nupd_self _ _ _ _ hnd4]
        show (childrenOf SM3 r).filter _ = _
        rw [hch3r, hown3r]
        simp only [hpar3]
      · rw [if_neg hk2]
        rw [childrenOf_nupd_ne _ _ _ _ hk2, childrenOf_nupd_ne _ _ _ _ hk1,
          hSM3, childrenOf_nupd_ne _ _ _ _ hk1]
        exact hch2o k hk1 hk2

/-- Final state of the promotion branch when the demoted old root is
re-inserted under its registered stored parent. -/
theorem promo_final_D (sm : SpanMap) (s : SpanID) (as : List Annotation) (r : ID)
    (rn pnd : TraceNode)
    (hfresh : alookup sm s.span = none)
    (hr : alookup sm r = some rn)
    (hrneq : r ≠ s.span)
    (hrs : rn.sid.span = r)
    (hpk : alookup sm (parentOf sm r) = some pnd)
    (hprr : parentOf sm r ≠ r) :
    (∀ k, (alookup (promoRest (reattachD (aset sm s.span ⟨s, as, []⟩) s.span r)
        s.span r) k).isSome = true ↔
      (k = s.span ∨ (alookup sm k).isSome = true)) ∧
    (∀ k, (alookup (promoRest (reattachD (aset sm s.span ⟨s, as, []⟩) s.span r)
        s.span r) k).map TraceNode.sid =
      if k = s.span then some s else (alookup sm k).map TraceNode.sid) ∧
    (∀ k, childrenOf (promoRest (reattachD (aset sm s.span ⟨s, as, []⟩) s.span r)
        s.span r) k =
      if k = s.span then
        (childrenOf sm r).filter (fun c => pfShift sm s c = s.span) ++
          ((childrenOf sm r).filter fun c => ¬ pfShift sm s c = s.span).filter
            (fun c => ¬ pfShift sm s c = r)
      else if k = r then
        ((childrenOf sm r).filter fun c => ¬ pfShift sm s c = s.span).filter
          (fun c => pfShift sm s c = r)
      else if k = parentOf sm r then
        childrenOf sm (parentOf sm r) ++ [r]
      else childrenOf sm k) := by
  have hsne : s.span ≠ r := fun hc => hrneq hc.symm
  have hprs : parentOf sm r ≠ s.span := by
    intro hc
    rw [hc, hfresh] at hpk
    cases hpk
  set A1 := aset sm s.span ⟨s, as, []⟩ with hA1
  set SM2 := reattachD A1 s.span r with hSM2
  have hlk1s : alookup A1 s.span = some ⟨s, as, []⟩ := sm1_lookup_self sm s as
  have hlk1r : alookup A1 r = some rn := by
    rw [hA1, sm1_lookup_ne sm s as r hrneq]
    exact hr
  have hpar2 : ∀ c, parentOf SM2 c = pfShift sm s c := by
    intro c
    rw [hSM2, parentOf_reattachD, hA1, sm1_parentOf]
  have hch2s : childrenOf SM2 s.span =
      (childrenOf sm r).filter (fun c => pfShift sm s c = s.span) := by
    rw [hSM2, childrenOf_reattachD_dst _ _ _ hsne _ hlk1s, hA1,
      sm1_children_self, sm1_children_ne sm s as r hrneq, sm1_ownSpan_self]
    simp only [sm1_parentOf]
    rfl
  have hch2r : childrenOf SM2 r =
      (childrenOf sm r).filter (fun c => ¬ pfShift sm s c = s.span) := by
    rw [hSM2, childrenOf_reattachD_src _ _ _ hsne _ hlk1r, hA1,
      sm1_children_ne sm s as r hrneq, sm1_ownSpan_self]
    simp only [sm1_parentOf]
  have hch2o : ∀ k, k ≠ s.span → k ≠ r →
      childrenOf SM2 k = childrenOf sm k := by
    intro k h1 h2
    rw [hSM2, childrenOf_reattachD_other _ _ _ _ h1 h2, hA1,
      sm1_children_ne sm s as k h1]
  have hpr2 : parentOf SM2 r = parentOf sm r := by
    rw [hpar2]
    unfold pfShift
    rw [if_neg hrneq]
  have hkeys2 : ∀ k, (alookup SM2 k).isSome = true ↔
      (k = s.span ∨ (alookup sm k).isSome = true) := by
    intro k
    rw [hSM2, isSome_reattachD, hA1]
    exact sm1_keys sm s as k
  have hsid2 : ∀ k, (alookup SM2 k).map TraceNode.sid =
      if k = s.span then some s else (alookup sm k).map TraceNode.sid := by
    intro k
    rw [hSM2, sid_reattachD, hA1]
    exact sm1_sid sm s as k
  have hown2r : ownSpanOf SM2 r = r := by
    rw [hSM2, ownSpanOf_reattachD, hA1, sm1_own_ne sm s as r hrneq]
    unfold ownSpanOf
    rw [hr]
    exact hrs
  have hsome2pr : (alookup SM2 (parentOf sm r)).isSome = true := by
    rw [hkeys2]
    right
    rw [hpk]
    rfl
  obtain ⟨nd2p, hnd2p⟩ := Option.isSome_iff_exists.mp hsome2pr
  have hins3 : insertNode SM2 s.span r = nupd SM2 (parentOf sm r)
      fun n => ⟨n.sid, n.annotations, n.sub ++ [r]⟩ := by
    have hnd2p' : alookup SM2 (parentOf SM2 r) = some nd2p := by
      rw [hpr2]
      exact hnd2p
    rw [insertNode_present _ _ _ nd2p hnd2p', hpr2]
  unfold promoRest
  dsimp only
  rw [hins3]
  set SM3 := nupd SM2 (parentOf sm r)
    (fun n => ⟨n.sid, n.annotations, n.sub ++ [r]⟩) with hSM3
  have hch3s : childrenOf SM3 s.span =
      (childrenOf sm r).filter (fun c => pfShift sm s c = s.span) := by
    rw [hSM3, childrenOf_nupd_ne _ _ _ _ (fun hc => hprs hc.symm)]
    exact hch2s
  have hch3r : childrenOf SM3 r =
      (childrenOf sm r).filter (fun c => ¬ pfShift sm s c = s.span) := by
    rw [hSM3, childrenOf_nupd_ne _ _ _ _ (fun hc => hprr hc.symm)]
    exact hch2r
  have hch3pr : childrenOf SM3 (parentOf sm r) =
      childrenOf sm (parentOf sm r) ++ [r] := by
    rw [hSM3, childrenOf_nupd_self _ _ _ _ hnd2p]
    show nd2p.sub ++ [r] = _
    rw [← childrenOf_eq _ _ _ hnd2p, hch2o _ hprs hprr]
  have hpar3 : ∀ c, parentOf SM3 c = pfShift sm s c := by
    intro c
    rw [hSM3, parentOf_nupd, hpar2]
    exact fun n => rfl
  have hown3r : ownSpanOf SM3 r = r := by
    rw [hSM3, ownSpanOf_nupd, hown2r]
    exact fun n => rfl
  have hkeys3 : ∀ k, (alookup SM3 k).isSome = true ↔
      (k = s.span ∨ (alookup sm k).isSome = true) := by
    intro k
    rw [hSM3, alookup_isSome_nupd]
    exact hkeys2 k
  refine ⟨?_, ?_, ?_⟩
  · intro k
    rw [alookup_isSome_nupd, alookup_isSome_nupd]
    exact hkeys3 k
  · intro k
    rw [sid_nupd, sid_nupd]
    · rw [hSM3, sid_nupd]
      · exact hsid2 k
      · exact fun n => rfl
    · exact fun n => rfl
    · exact fun n => rfl
  · intro k
    by_cases hk1 : k = s.span
    · subst hk1
      rw [if_pos rfl]
      rw [childrenOf_nupd_ne _ _ _ _ hsne]
      have hsome3s : (alookup SM3 s.span).isSome = true := by
        rw [hkeys3]
        exact Or.inl rfl
      obtain ⟨nd3s, hnd3s⟩ := Option.isSome_iff_exists.mp hsome3s
      rw [childrenOf_nupd_self _ _ _ _ hnd3s]
      show nd3s.sub ++ _ = _
      rw [← childrenOf_eq _ _ _ hnd3s, hch3s, hch3r, hown3r]
      simp only [hpar3]
    · rw [if_neg hk1]
      by_cases hk2 : k = r
      · rw [if_pos hk2, hk2]
        have hsome4 : (alookup (nupd SM3 s.span fun rr =>
            ⟨rr.sid, rr.annotations, rr.sub ++ (childrenOf SM3 r).filter
              fun c => ¬ parentOf SM3 c = ownSpanOf SM3 r⟩) r).isSome
            = true := by
          rw [alookup_isSome_nupd, hkeys3]
          right
          rw [hr]
          rfl
        obtain ⟨nd4, hnd4⟩ := Option.isSome_iff_exists.mp hsome4
        rw [childrenOf_nupd_self _ _ _ _ hnd4]
        show (childrenOf SM3 r).filter _ = _
        rw [hch3r, hown3r]
        simp only [hpar3]
      · rw [if_neg hk2]
        rw [childrenOf_nupd_ne _ _ _ _ hk2, childrenOf_nupd_ne _ _ _ _ hk1]
        by_cases hk3 : k = parentOf sm r
        · rw [if_pos hk3, hk3]
          exact hch3pr
        · rw [if_neg hk3]
          rw [hSM3, childrenOf_nupd_ne _ _ _ _ hk3]
          exact hch2o k hk1 hk2

theorem invSM_singleton (s : SpanID) (as : List Annotation) :
    InvSM [s] (aset ([] : SpanMap) s.span ⟨s, as, []⟩) s.span := by
  have hlk : ∀ k, alookup (aset ([] : SpanMap) s.span ⟨s, as, []⟩) k =
      if k = s.span then some ⟨s, as, []⟩ else none := by
    intro k
    rw [alookup_aset]
    by_cases h : k = s.span <;> simp [h, alookup]
  refine ⟨?_, ?_, ?_, ?_, ?_, ?_⟩
  · intro u hu
    simp at hu
    subst hu
    exact ⟨⟨u, as, []⟩, by rw [hlk, if_pos rfl], rfl⟩
  · intro k hk
    rw [hlk] at hk
    by_cases h : k = s.span
    · simp [h]
    · rw [if_neg h] at hk
      cases hk
  · simp
  · intro u hu hu0
    simp at hu
    subst hu
    rfl
  · intro x k
    have hch : childrenOf (aset ([] : SpanMap) s.span ⟨s, as, []⟩) k = [] := by
      unfold childrenOf
      rw [hlk]
      by_cases h : k = s.span
      · simp [h]
      · simp only [if_neg h, Option.getD_none]
        rfl
    rw [hch]
    constructor
    · intro hm
      cases hm
    · rintro ⟨h1, h2, h3⟩
      rw [hlk] at h1
      by_cases h : x = s.span
      · exact absurd h h2
      · rw [if_neg h] at h1
        cases h1
  · intro k
    have hch : childrenOf (aset ([] : SpanMap) s.span ⟨s, as, []⟩) k = [] := by
      unfold childrenOf
      rw [hlk]
      by_cases h : k = s.span
      · simp [h]
      · simp only [if_neg h, Option.getD_none]
        rfl
    rw [hch]
    exact List.nodup_nil

/-- The induction step: collecting a fresh span of a well-formed trace
preserves the store invariant. -/
theorem inv_step (T : ID) (L : List SpanID) (hWF : WFTrace T L)
    (S : List SpanID) (s : SpanID) (hsL : s ∈ L)
    (hSL : ∀ u ∈ S, u ∈ L)
    (hnew : s.span ∉ S.map SpanID.span)
    (ms : MemoryStore) (as : List Annotation) (hInv : InvStore T S ms) :
    InvStore T (s :: S) (collectD ms s as) := by
  have hsT : s.trace = T := hWF.trace_eq s hsL
  have hsz : s.span ≠ 0 := hWF.span_ne_zero s hsL
  have hsp : s.parent ≠ s.span := hWF.no_self_parent s hsL
  cases S with
  | nil =>
    obtain ⟨hms, hmt⟩ := hInv
    have hmt' : alookup ms.trace s.trace = none := by
      rw [hsT]
      exact hmt
    rw [collectD, collect_bootstrap ms s as hmt']
    have hsm1 : sm1Of ms s as = aset ([] : SpanMap) s.span ⟨s, as, []⟩ := by
      unfold sm1Of spansOf
      rw [hsT, hms]
      rfl
    refine ⟨sm1Of ms s as, s.span, ?_, ?_, ?_⟩
    · show alookup (aset ms.span s.trace (sm1Of ms s as)) T = _
      rw [← hsT, alookup_aset, if_pos rfl]
    · show alookup (aset ms.trace s.trace s.span) T = _
      rw [← hsT, alookup_aset, if_pos rfl]
    · rw [hsm1]
      exact invSM_singleton s as
  | cons c S' =>
    obtain ⟨sm, r, hsm, hrt, hISM⟩ := hInv
    have hrt' : alookup ms.trace s.trace = some r := by
      rw [hsT]
      exact hrt
    have hspans : spansOf ms s.trace = sm := by
      unfold spansOf
      rw [hsT, hsm]
      rfl
    have hfresh : alookup sm s.span = none := by
      cases hx : alookup sm s.span with
      | none => rfl
      | some nd =>
        have hin : s.span ∈ (c :: S').map SpanID.span := by
          apply hISM.keys_sub
          rw [hx]
          rfl
        exact absurd hin hnew
    have hsm1 : sm1Of ms s as = aset sm s.span ⟨s, as, []⟩ := by
      unfold sm1Of
      rw [hspans, hfresh]
    obtain ⟨sr, hsrS, hsrspan⟩ := List.mem_map.mp hISM.root_mem
    obtain ⟨rn, hrn, hrnsid⟩ := hISM.node_sid sr hsrS
    rw [hsrspan] at hrn
    have hrneq : r ≠ s.span := by
      intro hc
      rw [hc, hfresh] at hrn
      cases hrn
    have hsner : s.span ≠ r := fun hc => hrneq hc.symm
    have hrs : rn.sid.span = r := by
      rw [hrnsid, hsrspan]
    have hparr : parentOf sm r = sr.parent := by
      unfold parentOf
      rw [hrn]
      show rn.sid.parent = sr.parent
      rw [hrnsid]
    have hrootpar : ((alookup (sm1Of ms s as) r).getD default).sid.parent =
        sr.parent := by
      rw [hsm1, sm1_lookup_ne sm s as r hrneq, hrn]
      show rn.sid.parent = sr.parent
      rw [hrnsid]
    by_cases hcond : s.parent = 0 ∨ sr.parent = s.span
    · -- promotion branch
      have hcond' : s.parent = 0 ∨
          ((alookup (sm1Of ms s as) r).getD default).sid.parent = s.span := by
        rcases hcond with h | h
        · exact Or.inl h
        · right
          rw [hrootpar]
          exact h
      have hrr : ∀ u ∈ c :: S', u.parent = 0 → s.span = u.span := by
        intro u hu hu0
        rcases hcond with h0 | hps2
        · have := hWF.root_unique s hsL u (hSL u hu) h0 hu0
          rw [this]
        · exfalso
          have hru : r = u.span := hISM.root_real u hu hu0
          have hsru : sr = u :=
            List.inj_on_of_nodup_map hWF.span_nodup (hSL sr hsrS) (hSL u hu)
              (by rw [hsrspan, hru])
          rw [hsru, hu0] at hps2
          exact hsz hps2.symm
      rw [collectD, collect_promo ms s as r hrt' hsner hcond']
      refine ⟨promoRest (reattachD (sm1Of ms s as) s.span r) s.span r, s.span,
        ?_, ?_, ?_⟩
      · show alookup (aset ms.span s.trace _) T = _
        rw [← hsT, alookup_aset, if_pos rfl]
      · show alookup (aset ms.trace s.trace s.span) T = _
        rw [← hsT, alookup_aset, if_pos rfl]
      · rw [hsm1]
        by_cases hD : (alookup sm (parentOf sm r)).isSome = true
        · obtain ⟨pnd, hpnd⟩ := Option.isSome_iff_exists.mp hD
          have hprr : parentOf sm r ≠ r := by
            rw [hparr]
            intro hc
            exact hWF.no_self_parent sr (hSL sr hsrS) (hc.trans hsrspan.symm)
          obtain ⟨hk1, hk2, hk3⟩ := promo_final_D sm s as r rn pnd hfresh hrn
            hrneq hrs hpnd hprr
          exact invSM_step_promoParent (c :: S') sm r hISM s _ hfresh hsp hrr
            hD hprr hk1 hk2 hk3
        · have hprC : parentOf sm r = s.span ∨
              alookup sm (parentOf sm r) = none :=
            Or.inr (eq_none_of_isSome_eq_false hD)
          obtain ⟨hk1, hk2, hk3⟩ := promo_final_C sm s as r rn hfresh hrn
            hrneq hrs hprC
          exact invSM_step_promoRoot (c :: S') sm r hISM s _ hfresh hsp hrr
            hprC hk1 hk2 hk3
    · -- no-promotion branch
      have hp0 : s.parent ≠ 0 := fun hc => hcond (Or.inl hc)
      have hcond' : ¬ (s.parent = 0 ∨
          ((alookup (sm1Of ms s as) r).getD default).sid.parent = s.span) := by
        rw [hrootpar]
        exact hcond
      rw [collectD, collect_nopromo ms s as r hrt' hsner hcond']
      rw [if_pos ⟨hp0, hsner⟩]
      refine ⟨reattachD (insertNode (sm1Of ms s as) r s.span) s.span r, r,
        ?_, ?_, ?_⟩
      · show alookup (aset ms.span s.trace _) T = _
        rw [← hsT, alookup_aset, if_pos rfl]
      · exact hrt
      · rw [hsm1]
        by_cases hB : (alookup sm s.parent).isSome = true ∧ s.parent ≠ r
        · obtain ⟨hBq, hBr⟩ := hB
          obtain ⟨qnd, hqnd⟩ := Option.isSome_iff_exists.mp hBq
          obtain ⟨hk1, hk2, hk3⟩ := np_final_B sm s as r rn qnd hfresh hsp
            hrn hrneq hqnd hBr
          exact invSM_step_parentattach (c :: S') sm r hISM s _ hfresh hp0
            hsp hBq hBr hk1 hk2 hk3
        · have hpr : s.parent = r ∨ alookup sm s.parent = none := by
            by_cases hpr1 : s.parent = r
            · exact Or.inl hpr1
            · right
              apply eq_none_of_isSome_eq_false
              intro hc
              exact hB ⟨hc, hpr1⟩
          obtain ⟨hk1, hk2, hk3⟩ := np_final_A sm s as r rn hfresh hsp
            hrn hrneq hpr
          exact invSM_step_rootattach (c :: S') sm r hISM s _ hfresh hp0
            hsp hpr hk1 hk2 hk3

/-- Folding `inv_step`: running any duplicate-free sequence of `Collect`
calls with spans of a well-formed trace preserves the store invariant. -/
theorem inv_collectList (T : ID) (L : List SpanID) (hWF : WFTrace T L)
    (cs : List (SpanID × List Annotation))
    (hcsL : ∀ c ∈ cs, c.1 ∈ L)
    (hnd : (cs.map (fun c => c.1.span)).Nodup)
    (S : List SpanID) (hSL : ∀ u ∈ S, u ∈ L)
    (hdisj : ∀ c ∈ cs, c.1.span ∉ S.map SpanID.span)
    (ms : MemoryStore) (hInv : InvStore T S ms) :
    InvStore T (cs.reverse.map Prod.fst ++ S) (collectList ms cs) := by
  induction cs generalizing S ms with
  | nil => simpa [collectList] using hInv
  | cons c rest ih =>
    simp only [List.map_cons, List.nodup_cons] at hnd
    have hstep := inv_step T L hWF S c.1 (hcsL c (by simp)) hSL
      (hdisj c (by simp)) ms c.2 hInv
    have hSL' : ∀ u ∈ c.1 :: S, u ∈ L := by
      intro u hu
      rcases List.mem_cons.mp hu with h | h
      · rw [h]
        exact hcsL c (by simp)
      · exact hSL u h
    have hdisj' : ∀ d ∈ rest, d.1.span ∉ (c.1 :: S).map SpanID.span := by
      intro d hd
      simp only [List.map_cons, List.mem_cons]
      rintro (h1 | h2)
      · exact hnd.1 (List.mem_map.mpr ⟨d, hd, h1⟩)
      · exact hdisj d (by simp [hd]) h2
    have hres := ih (fun d hd => hcsL d (by simp [hd])) hnd.2
      (c.1 :: S) hSL' hdisj' (collectD ms c.1 c.2) hstep
    have hlist : (c :: rest).reverse.map Prod.fst ++ S =
        rest.reverse.map Prod.fst ++ (c.1 :: S) := by
      simp
    rw [hlist]
    exact hres

/-- The store invariant at the end of any duplicate-free collection
sequence started from the fresh store. -/
theorem inv_collectAll (T : ID) (L : List SpanID) (hWF : WFTrace T L)
    (cs : List (SpanID × List Annotation))
    (hcsL : ∀ c ∈ cs, c.1 ∈ L)
    (hnd : (cs.map (fun c => c.1.span)).Nodup) :
    InvStore T (cs.reverse.map Prod.fst) (collectAll cs) := by
  have h := inv_collectList T L hWF cs hcsL hnd []
    (by intro u hu; cases hu) (by intro c hc; simp) emptyStore ⟨rfl, rfl⟩
  simpa using h

/-! ## The fully collected trace -/

/-- Once the collected set covers the whole well-formed trace, membership
in a child list is exactly the stored parent/child relation. -/
theorem full_children_char (T : ID) (L : List SpanID) (hWF : WFTrace T L)
    (S : List SpanID) (sm : SpanMap) (r : ID) (hI : InvSM S sm r)
    (hcov : ∀ u, u ∈ S ↔ u ∈ L) :
    ∀ x k, x ∈ childrenOf sm k ↔
      ∃ u ∈ L, u.span = x ∧ u.parent = k ∧ u.parent ≠ 0 := by
  intro x k
  rw [hI.sub_iff]
  constructor
  · rintro ⟨h1, h2, h3⟩
    obtain ⟨u, hu, huspan⟩ := List.mem_map.mp (hI.keys_sub x h1)
    have huL := (hcov u).mp hu
    have hup0 : u.parent ≠ 0 := by
      intro h0
      exact h2 ((hI.root_real u hu h0).trans huspan).symm
    obtain ⟨nd, hnd, hndsid⟩ := hI.node_sid u hu
    rw [huspan] at hnd
    have hpx : parentOf sm x = u.parent := by
      unfold parentOf
      rw [hnd]
      show nd.sid.parent = u.parent
      rw [hndsid]
    obtain ⟨p, hpL, hpspan⟩ := hWF.parent_closed u huL hup0
    obtain ⟨pn, hpn, _⟩ := hI.node_sid p ((hcov p).mpr hpL)
    have hsome : (alookup sm (parentOf sm x)).isSome = true := by
      rw [hpx, ← hpspan, hpn]
      rfl
    unfold attachPoint at h3
    rw [if_pos hsome, hpx] at h3
    exact ⟨u, huL, huspan, h3, hup0⟩
  · rintro ⟨u, huL, huspan, hupar, hup0⟩
    have huS := (hcov u).mpr huL
    obtain ⟨nd, hnd, hndsid⟩ := hI.node_sid u huS
    rw [huspan] at hnd
    have hpx : parentOf sm x = u.parent := by
      unfold parentOf
      rw [hnd]
      show nd.sid.parent = u.parent
      rw [hndsid]
    refine ⟨?_, ?_, ?_⟩
    · rw [hnd]
      rfl
    · intro hxr
      obtain ⟨rt, hrtL, hrt0⟩ := hWF.root_mem
      have hrr : r = rt.span := hI.root_real rt ((hcov rt).mpr hrtL) hrt0
      have hurt : u = rt :=
        List.inj_on_of_nodup_map hWF.span_nodup huL hrtL
          (by rw [huspan, hxr, hrr])
      exact hup0 (by rw [hurt, hrt0])
    · obtain ⟨p, hpL, hpspan⟩ := hWF.parent_closed u huL hup0
      obtain ⟨pn, hpn, _⟩ := hI.node_sid p ((hcov p).mpr hpL)
      have hsome : (alookup sm (parentOf sm x)).isSome = true := by
        rw [hpx, ← hpspan, hpn]
        rfl
      unfold attachPoint
      rw [if_pos hsome, hpx, hupar]

/-- After collecting a complete well-formed trace in any order, the root
pointer designates the real root and the child lists realize the stored
parent/child relation. -/
theorem collectAll_full_char (T : ID) (L : List SpanID) (hWF : WFTrace T L)
    (cs : List (SpanID × List Annotation))
    (hperm : (cs.map Prod.fst).Perm L)
    (rt : SpanID) (hrtL : rt ∈ L) (hrt0 : rt.parent = 0) :
    traceRoot (collectAll cs) T = some rt.span ∧
    ∀ x k, x ∈ childrenOf (spansOf (collectAll cs) T) k ↔
      ∃ u ∈ L, u.span = x ∧ u.parent = k ∧ u.parent ≠ 0 := by
  have hcsL : ∀ c ∈ cs, c.1 ∈ L := fun c hc =>
    hperm.mem_iff.mp (List.mem_map_of_mem Prod.fst hc)
  have hnd : (cs.map (fun c => c.1.span)).Nodup := by
    have h2 : ((cs.map Prod.fst).map SpanID.span).Nodup :=
      ((hperm.map SpanID.span).nodup_iff).mpr hWF.span_nodup
    simpa [List.map_map] using h2
  have hInv := inv_collectAll T L hWF cs hcsL hnd
  have hcov : ∀ u, u ∈ cs.reverse.map Prod.fst ↔ u ∈ L := by
    intro u
    have h1 : u ∈ cs.reverse.map Prod.fst ↔ u ∈ cs.map Prod.fst := by
      simp [List.mem_map]
    rw [h1, hperm.mem_iff]
  have hrtS : rt ∈ cs.reverse.map Prod.fst := (hcov rt).mpr hrtL
  cases hSc : cs.reverse.map Prod.fst with
  | nil =>
    rw [hSc] at hrtS
    cases hrtS
  | cons a S1 =>
    rw [hSc] at hInv hcov hrtS
    obtain ⟨sm, r, hsm, hrtr, hI⟩ := hInv
    have hspans : spansOf (collectAll cs) T = sm := by
      unfold spansOf
      rw [hsm]
      rfl
    have hroot : r = rt.span := hI.root_real rt hrtS hrt0
    constructor
    · unfold traceRoot
      rw [hrtr, hroot]
    · intro x k
      rw [hspans]
      exact full_children_char T L hWF (a :: S1) sm r hI hcov x k

/-- C1.  Once every span of a well-formed trace has been collected, in
any arrival order, a node is a child of another in the assembled tree if
and only if the child's `Parent` field equals the parent's `Span`
field. -/
theorem C1_complete_trace_children_iff (T : ID) (L : List SpanID)
    (hWF : WFTrace T L) (cs : List (SpanID × List Annotation))
    (hperm : (cs.map Prod.fst).Perm L) :
    ∀ x ∈ L, ∀ y ∈ L,
      (x.span ∈ childrenOf (spansOf (collectAll cs) T) y.span ↔
        x.parent = y.span) := by
  obtain ⟨rt, hrtL, hrt0⟩ := hWF.root_mem
  obtain ⟨_, hch⟩ := collectAll_full_char T L hWF cs hperm rt hrtL hrt0
  intro x hx y hy
  rw [hch]
  constructor
  · rintro ⟨u, huL, huspan, hupar, _⟩
    have hux : u = x := List.inj_on_of_nodup_map hWF.span_nodup huL hx huspan
    rw [hux] at hupar
    exact hupar
  · intro hxy
    refine ⟨x, hx, rfl, hxy, ?_⟩
    rw [hxy]
    exact hWF.span_ne_zero y hy

theorem C1_complete_trace_children_iff_witness :
    (2 : ID) ∈ childrenOf
      (spansOf (collectAll
        [(⟨1, 2, 1⟩, ([] : List Annotation)), (⟨1, 1, 0⟩, [])]) 1) 1 ↔
      (1 : ID) = 1 :=
  C1_complete_trace_children_iff 1 [⟨1, 1, 0⟩, ⟨1, 2, 1⟩]
    ⟨by decide, by decide, by decide, by decide, by decide, by decide,
      by decide⟩
    [(⟨1, 2, 1⟩, ([] : List Annotation)), (⟨1, 1, 0⟩, [])]
    (by decide) ⟨1, 2, 1⟩ (by decide) ⟨1, 1, 0⟩ (by decide)

/-- C2, counterexample to the unrestricted claim: two spans of one trace
whose (distinct) parents are not in the collected set.  Collected in one
order the first span is the temporary root and the second its orphan
child; in the other order the roles are swapped, so the two trees do not
match even ignoring child-list order. -/
theorem C2_counterexample_partial_set_order :
    traceRoot (collectAll
      [(⟨1, 2, 10⟩, ([] : List Annotation)), (⟨1, 3, 11⟩, [])]) 1 =
        some 2 ∧
    traceRoot (collectAll
      [(⟨1, 3, 11⟩, ([] : List Annotation)), (⟨1, 2, 10⟩, [])]) 1 =
        some 3 ∧
    childrenOf (spansOf (collectAll
      [(⟨1, 2, 10⟩, ([] : List Annotation)), (⟨1, 3, 11⟩, [])]) 1) 2 =
        [3] ∧
    childrenOf (spansOf (collectAll
      [(⟨1, 3, 11⟩, ([] : List Annotation)), (⟨1, 2, 10⟩, [])]) 1) 2 =
        [] := by
  decide

/-- C2 (corrected: the fixed set must be the complete span set of the
trace).  Collecting all spans of a well-formed trace in any two orders
yields the same root and, for every key, the same child-list membership:
identical parent/child structure up to child-list order. -/
theorem C2_complete_order_independence (T : ID) (L : List SpanID)
    (hWF : WFTrace T L) (cs1 cs2 : List (SpanID × List Annotation))
    (h1 : (cs1.map Prod.fst).Perm L) (h2 : (cs2.map Prod.fst).Perm L) :
    traceRoot (collectAll cs1) T = traceRoot (collectAll cs2) T ∧
    ∀ x k, (x ∈ childrenOf (spansOf (collectAll cs1) T) k ↔
      x ∈ childrenOf (spansOf (collectAll cs2) T) k) := by
  obtain ⟨rt, hrtL, hrt0⟩ := hWF.root_mem
  obtain ⟨hr1, hc1⟩ := collectAll_full_char T L hWF cs1 h1 rt hrtL hrt0
  obtain ⟨hr2, hc2⟩ := collectAll_full_char T L hWF cs2 h2 rt hrtL hrt0
  refine ⟨hr1.trans hr2.symm, ?_⟩
  intro x k
  rw [hc1, hc2]

theorem C2_complete_order_independence_witness :
    traceRoot (collectAll
        [(⟨1, 1, 0⟩, ([] : List Annotation)), (⟨1, 2, 1⟩, [])]) 1 =
      traceRoot (collectAll
        [(⟨1, 2, 1⟩, ([] : List Annotation)), (⟨1, 1, 0⟩, [])]) 1 ∧
    ∀ x k, (x ∈ childrenOf (spansOf (collectAll
        [(⟨1, 1, 0⟩, ([] : List Annotation)), (⟨1, 2, 1⟩, [])]) 1) k ↔
      x ∈ childrenOf (spansOf (collectAll
        [(⟨1, 2, 1⟩, ([] : List Annotation)), (⟨1, 1, 0⟩, [])]) 1) k) :=
  C2_complete_order_independence 1 [⟨1, 1, 0⟩, ⟨1, 2, 1⟩]
    ⟨by decide, by decide, by decide, by decide, by decide, by decide,
      by decide⟩
    [(⟨1, 1, 0⟩, ([] : List Annotation)), (⟨1, 2, 1⟩, [])]
    [(⟨1, 2, 1⟩, ([] : List Annotation)), (⟨1, 1, 0⟩, [])]
    (by decide) (by decide)

/-- Every registered key is reachable from the designated root along the
child lists, by strong induction on a rank decreasing along stored
parents (the parent relation of a generated trace is well-founded). -/
theorem invSM_reachable (T : ID) (L : List SpanID) (hWF : WFTrace T L)
    (S : List SpanID) (sm : SpanMap) (r : ID) (hI : InvSM S sm r)
    (hSL : ∀ u ∈ S, u ∈ L)
    (rank : ID → Nat)
    (hrank : ∀ u ∈ L, ∀ p ∈ L, p.span = u.parent →
      rank p.span < rank u.span) :
    ∀ k, (alookup sm k).isSome = true → ReachableFrom sm r k := by
  have main : ∀ n k, rank k = n → (alookup sm k).isSome = true →
      ReachableFrom sm r k := by
    intro n
    induction n using Nat.strong_induction_on with
    | _ n ih =>
      intro k hrk hk
      by_cases hkr : k = r
      · rw [hkr]
        exact ReachableFrom.refl r
      · have hmem : k ∈ childrenOf sm (attachPoint sm r k) :=
          (hI.sub_iff k (attachPoint sm r k)).mpr ⟨hk, hkr, rfl⟩
        by_cases hp : (alookup sm (parentOf sm k)).isSome = true
        · obtain ⟨u, huS, huspan⟩ := List.mem_map.mp (hI.keys_sub k hk)
          obtain ⟨nd, hnd, hndsid⟩ := hI.node_sid u huS
          rw [huspan] at hnd
          have hpk : parentOf sm k = u.parent := by
            unfold parentOf
            rw [hnd]
            show nd.sid.parent = u.parent
            rw [hndsid]
          obtain ⟨v, hvS, hvspan⟩ := List.mem_map.mp (hI.keys_sub _ hp)
          have hv : v.span = u.parent := hvspan.trans hpk
          have hlt : rank (parentOf sm k) < rank k := by
            rw [hpk, ← huspan, ← hv]
            exact hrank u (hSL u huS) v (hSL v hvS) hv
          have hreach : ReachableFrom sm r (parentOf sm k) :=
            ih (rank (parentOf sm k)) (by rw [← hrk]; exact hlt)
              (parentOf sm k) rfl hp
          have hattach : attachPoint sm r k = parentOf sm k := by
            unfold attachPoint
            rw [if_pos hp]
          rw [hattach] at hmem
          exact ReachableFrom.tail hreach hmem
        · have hattach : attachPoint sm r k = r := by
            unfold attachPoint
            rw [if_neg hp]
          rw [hattach] at hmem
          exact ReachableFrom.tail (ReachableFrom.refl r) hmem
  exact fun k hk => main (rank k) k rfl hk

/-- Once a node and its true parent are both collected, the node sits in
its true parent's child list - unless it is the current root itself. -/
theorem invSM_stable (S : List SpanID) (sm : SpanMap) (r : ID)
    (hI : InvSM S sm r) (x p : SpanID) (hx : x ∈ S) (hp : p ∈ S)
    (hpar : p.span = x.parent) (hxr : x.span ≠ r) :
    x.span ∈ childrenOf sm x.parent := by
  obtain ⟨nd, hnd, hndsid⟩ := hI.node_sid x hx
  obtain ⟨pn, hpn, _⟩ := hI.node_sid p hp
  have hpx : parentOf sm x.span = x.parent := by
    unfold parentOf
    rw [hnd]
    show nd.sid.parent = x.parent
    rw [hndsid]
  have hsome : (alookup sm (parentOf sm x.span)).isSome = true := by
    rw [hpx, ← hpar, hpn]
    rfl
  apply (hI.sub_iff x.span x.parent).mpr
  refine ⟨by rw [hnd]; rfl, hxr, ?_⟩
  unfold attachPoint
  rw [if_pos hsome, hpx]

/-- C5.  After any duplicate-free sequence of `Collect` calls with spans
of a well-formed trace (in particular after every prefix, i.e. after
every single call), every node ever created is reachable from the
current root along the `Sub` child lists; and whenever a node and its
true parent have both been collected, the node is either the current
root or a child of its true parent - so a node's attachment changes at
most once more after its true parent arrives, namely to that parent. -/
theorem C5_reachable_and_parent_stable (T : ID) (L : List SpanID)
    (hWF : WFTrace T L) (rank : ID → Nat)
    (hrank : ∀ u ∈ L, ∀ p ∈ L, p.span = u.parent →
      rank p.span < rank u.span)
    (cs : List (SpanID × List Annotation))
    (hcsL : ∀ c ∈ cs, c.1 ∈ L)
    (hnd : (cs.map (fun c => c.1.span)).Nodup)
    (sm : SpanMap) (r : ID)
    (hsm : alookup (collectAll cs).span T = some sm)
    (hr : traceRoot (collectAll cs) T = some r) :
    (∀ k, (alookup sm k).isSome = true → ReachableFrom sm r k) ∧
    (∀ x p, x ∈ cs.map Prod.fst → p ∈ cs.map Prod.fst →
      p.span = x.parent →
      x.span = r ∨ x.span ∈ childrenOf sm x.parent) := by
  have hInv := inv_collectAll T L hWF cs hcsL hnd
  cases hSc : cs.reverse.map Prod.fst with
  | nil =>
    rw [hSc] at hInv
    rw [hInv.1] at hsm
    cases hsm
  | cons a S1 =>
    rw [hSc] at hInv
    obtain ⟨sm2, r2, hsm2, hr2, hI⟩ := hInv
    have hsmeq : sm2 = sm := by
      rw [hsm2] at hsm
      exact Option.some.inj hsm
    have hreq : r2 = r := by
      unfold traceRoot at hr
      rw [hr2] at hr
      exact Option.some.inj hr
    rw [hsmeq, hreq] at hI
    have hSL : ∀ u ∈ a :: S1, u ∈ L := by
      intro u hu
      rw [← hSc] at hu
      obtain ⟨c, hc, hcu⟩ := List.mem_map.mp hu
      rw [← hcu]
      exact hcsL c (List.mem_reverse.mp hc)
    constructor
    · exact invSM_reachable T L hWF (a :: S1) sm r hI hSL rank hrank
    · intro x p hxm hpm hpar
      by_cases hxr : x.span = r
      · exact Or.inl hxr
      · right
        have hmm : ∀ u, u ∈ cs.map Prod.fst → u ∈ a :: S1 := by
          intro u hu
          rw [← hSc]
          obtain ⟨c, hc, hcu⟩ := List.mem_map.mp hu
          exact List.mem_map.mpr ⟨c, List.mem_reverse.mpr hc, hcu⟩
        exact invSM_stable (a :: S1) sm r hI x p (hmm x hxm) (hmm p hpm)
          hpar hxr

theorem C5_reachable_and_parent_stable_witness :
    ((∀ k, (alookup (spansOf (collectAll
        [(⟨1, 1, 0⟩, ([] : List Annotation)), (⟨1, 2, 1⟩, [])]) 1)
          k).isSome = true →
      ReachableFrom (spansOf (collectAll
        [(⟨1, 1, 0⟩, ([] : List Annotation)), (⟨1, 2, 1⟩, [])]) 1) 1 k) ∧
    (∀ x p, x ∈ [((⟨1, 1, 0⟩ : SpanID), ([] : List Annotation)),
        (⟨1, 2, 1⟩, [])].map Prod.fst →
      p ∈ [((⟨1, 1, 0⟩ : SpanID), ([] : List Annotation)),
        (⟨1, 2, 1⟩, [])].map Prod.fst →
      p.span = x.parent →
      x.span = 1 ∨ x.span ∈ childrenOf (spansOf (collectAll
        [(⟨1, 1, 0⟩, ([] : List Annotation)), (⟨1, 2, 1⟩, [])]) 1)
          x.parent)) :=
  C5_reachable_and_parent_stable 1 [⟨1, 1, 0⟩, ⟨1, 2, 1⟩]
    ⟨by decide, by decide, by decide, by decide, by decide, by decide,
      by decide⟩
    (fun k => k) (by decide)
    [(⟨1, 1, 0⟩, ([] : List Annotation)), (⟨1, 2, 1⟩, [])]
    (by decide) (by decide)
    (spansOf (collectAll
      [(⟨1, 1, 0⟩, ([] : List Annotation)), (⟨1, 2, 1⟩, [])]) 1)
    1 (by rfl) (by rfl)

/-! ## SpanID string round trip -/

theorem hexVal_hexDigitChar : ∀ m, m < 16 → hexVal (hexDigitChar m) = some m := by
  decide

theorem hexDigitChar_ne_slash : ∀ m, m < 16 → hexDigitChar m ≠ '/' := by
  decide

theorem toHexDigits_length : ∀ (k n : Nat), (toHexDigits n k).length = k := by
  intro k
  induction k with
  | zero => intro n; rfl
  | succ k ih =>
    intro n
    show (toHexDigits (n / 16) k ++ [hexDigitChar (n % 16)]).length = k + 1
    rw [List.length_append, ih]
    rfl

theorem toHexDigits_no_slash : ∀ (k n : Nat), ∀ c ∈ toHexDigits n k, c ≠ '/' := by
  intro k
  induction k with
  | zero =>
    intro n c hc
    cases hc
  | succ k ih =>
    intro n c hc
    have hc2 : c ∈ toHexDigits (n / 16) k ++ [hexDigitChar (n % 16)] := hc
    rcases List.mem_append.mp hc2 with h | h
    · exact ih (n / 16) c h
    · rw [List.mem_singleton.mp h]
      exact hexDigitChar_ne_slash (n % 16) (Nat.mod_lt n (by norm_num))

theorem parseHexAux_append : ∀ (xs ys : List Char) (acc : Nat),
    parseHexAux acc (xs ++ ys) =
      (parseHexAux acc xs).bind (fun a => parseHexAux a ys) := by
  intro xs
  induction xs with
  | nil =>
    intro ys acc
    rfl
  | cons c rest ih =>
    intro ys acc
    show (match hexVal c with
      | none => none
      | some d => parseHexAux (acc * 16 + d) (rest ++ ys)) = _
    cases h : hexVal c with
    | none => simp [parseHexAux, h]
    | some d => simp [parseHexAux, h, ih]

theorem parseHexAux_toHexDigits : ∀ (k acc n : Nat), n < 16 ^ k →
    parseHexAux acc (toHexDigits n k) = some (acc * 16 ^ k + n) := by
  intro k
  induction k with
  | zero =>
    intro acc n hn
    rw [pow_zero] at hn
    rw [Nat.lt_one_iff.mp hn]
    show some acc = some (acc * 16 ^ 0 + 0)
    rw [pow_zero, Nat.mul_one, Nat.add_zero]
  | succ k ih =>
    intro acc n hn
    have hdivlt : n / 16 < 16 ^ k := by
      rw [Nat.div_lt_iff_lt_mul (by norm_num : (0:Nat) < 16)]
      rw [← pow_succ]
      exact hn
    show parseHexAux acc (toHexDigits (n / 16) k ++ [hexDigitChar (n % 16)]) = _
    rw [parseHexAux_append, ih acc (n / 16) hdivlt]
    show parseHexAux (acc * 16 ^ k + n / 16) [hexDigitChar (n % 16)] = _
    show (match hexVal (hexDigitChar (n % 16)) with
      | none => none
      | some d => parseHexAux ((acc * 16 ^ k + n / 16) * 16 + d) []) = _
    rw [hexVal_hexDigitChar (n % 16) (Nat.mod_lt n (by norm_num))]
    show some ((acc * 16 ^ k + n / 16) * 16 + n % 16) = _
    congr 1
    have h16 : n / 16 * 16 + n % 16 = n := by
      rw [Nat.mul_comm]
      exact Nat.div_add_mod n 16
    calc (acc * 16 ^ k + n / 16) * 16 + n % 16
        = acc * (16 ^ k * 16) + (n / 16 * 16 + n % 16) := by ring
      _ = acc * 16 ^ (k + 1) + n := by rw [h16, ← pow_succ]

theorem ParseID_idString (n : Nat) (hn : n < 2 ^ 64) :
    ParseID (idString n) = some n := by
  have hb : n < 16 ^ 16 := by
    have : (16 : Nat) ^ 16 = 2 ^ 64 := by norm_num
    rw [this]
    exact hn
  have hne : idString n ≠ [] := by
    intro h
    have := toHexDigits_length 16 n
    rw [show toHexDigits n 16 = idString n from rfl, h] at this
    cases this
  unfold ParseID
  rw [if_neg hne]
  rw [show idString n = toHexDigits n 16 from rfl,
    parseHexAux_toHexDigits 16 0 n hb]
  show (if 0 * 16 ^ 16 + n < 2 ^ 64 then some (0 * 16 ^ 16 + n) else none) = _
  rw [Nat.zero_mul, Nat.zero_add, if_pos hn]

theorem splitOnSlash_no_slash : ∀ (xs : List Char), (∀ c ∈ xs, c ≠ '/') →
    splitOnSlash xs = [xs] := by
  intro xs
  induction xs with
  | nil =>
    intro _
    rfl
  | cons c rest ih =>
    intro h
    have hc : ¬ c = '/' := h c (by simp)
    have hr := ih (fun d hd => h d (by simp [hd]))
    show (if c = '/' then [] :: splitOnSlash rest
      else match splitOnSlash rest with
        | [] => [[c]]
        | p :: ps => (c :: p) :: ps) = [c :: rest]
    rw [if_neg hc, hr]

theorem splitOnSlash_append : ∀ (xs ys : List Char), (∀ c ∈ xs, c ≠ '/') →
    splitOnSlash (xs ++ '/' :: ys) = xs :: splitOnSlash ys := by
  intro xs
  induction xs with
  | nil =>
    intro ys _
    show (if '/' = '/' then [] :: splitOnSlash ys
      else match splitOnSlash ys with
        | [] => [['/']]
        | p :: ps => ('/' :: p) :: ps) = [] :: splitOnSlash ys
    rw [if_pos rfl]
  | cons c rest ih =>
    intro ys h
    have hc : ¬ c = '/' := h c (by simp)
    have hr := ih ys (fun d hd => h d (by simp [hd]))
    show (if c = '/' then [] :: splitOnSlash (rest ++ '/' :: ys)
      else match splitOnSlash (rest ++ '/' :: ys) with
        | [] => [[c]]
        | p :: ps => (c :: p) :: ps) = (c :: rest) :: splitOnSlash ys
    rw [if_neg hc, hr]

/-- C7.  For every SpanID whose components fit in sixty-four bits (as
produced by `NewRootSpanID` and `NewSpanID`), parsing the slash-joined
hexadecimal string form returns exactly the original SpanID. -/
theorem C7_parse_string_roundtrip (id : SpanID)
    (ht : id.trace < 2 ^ 64) (hs : id.span < 2 ^ 64)
    (hp : id.parent < 2 ^ 64) :
    ParseSpanID (spanIDString id) = some id := by
  have hnsl : ∀ n : Nat, ∀ c ∈ idString n, c ≠ '/' := fun n =>
    toHexDigits_no_slash 16 n
  unfold spanIDString
  by_cases h0 : id.parent = 0
  · rw [if_pos h0]
    unfold ParseSpanID
    rw [splitOnSlash_append _ _ (hnsl id.trace),
      splitOnSlash_no_slash _ (hnsl id.span)]
    simp only [ParseID_idString id.trace ht, ParseID_idString id.span hs]
    rw [← h0]
  · rw [if_neg h0]
    unfold ParseSpanID
    rw [List.append_assoc, List.cons_append]
    rw [splitOnSlash_append _ _ (hnsl id.trace),
      splitOnSlash_append _ _ (hnsl id.span),
      splitOnSlash_no_slash _ (hnsl id.parent)]
    simp only [ParseID_idString id.trace ht, ParseID_idString id.span hs,
      ParseID_idString id.parent hp]

theorem C7_parse_string_roundtrip_witness :
    ParseSpanID (spanIDString ⟨1, 2, 3⟩) = some ⟨1, 2, 3⟩ :=
  C7_parse_string_roundtrip ⟨1, 2, 3⟩ (by norm_num) (by norm_num)
    (by norm_num)
